import Mathlib

/-!
Camera orientation and movement model

A shallow embedding of `src/advancedLighting/src/independent/camera.cpp` and
`include/independent/camera.h`, of the second camera in
`normalMapping/normalMappingWithModel/camera.h`, of the input callbacks of
`src/core/application.cpp` and of the buffer arithmetic of
`TextureHelper::loadDDS` in `include/independent/texture.h`.

* `GLfloat` values are modelled as elements of a linearly ordered field `F`
  (exact arithmetic, no rounding).  Where rounding decides a property, the
  float operations on the camera angles and on the cached cursor position are
  modelled again with explicit binary32 and binary64 rounding on rationals
  (`roundF32`, `roundF64`, `mouseMoveAngles`, `cursorOffsets`).
* The math library used by the camera (`sin`, `cos`, `sqrt` and the constant
  behind `glm::radians`) is not part of the repository; it is taken as a
  parameter `m : Libm F`.  `realLibm` is the exact real-number instance.
* `glm::vec3` is `Vec3 F`; `glm::cross`, `glm::dot`, `glm::normalize` follow
  the GLM definitions.
-/

namespace CameraModel

/-! ## Vectors (glm::vec3) -/

/-- Three-component vector, `glm::vec3`. -/
@[ext] structure Vec3 (F : Type) where
  x : F
  y : F
  z : F
deriving DecidableEq, Repr

namespace Vec3

variable {F : Type}

/-- Component-wise sum, `a + b`. -/
def add [Add F] (a b : Vec3 F) : Vec3 F := ⟨a.x + b.x, a.y + b.y, a.z + b.z⟩

/-- Component-wise difference, `a - b`. -/
def sub [Sub F] (a b : Vec3 F) : Vec3 F := ⟨a.x - b.x, a.y - b.y, a.z - b.z⟩

/-- Vector times scalar, `v * s`. -/
def scale [Mul F] (v : Vec3 F) (s : F) : Vec3 F := ⟨v.x * s, v.y * s, v.z * s⟩

/-- Inner product, `glm::dot`. -/
def dot [Add F] [Mul F] (a b : Vec3 F) : F := a.x * b.x + a.y * b.y + a.z * b.z

/-- Cross product, `glm::cross`. -/
def cross [Sub F] [Mul F] (a b : Vec3 F) : Vec3 F :=
  ⟨a.y * b.z - b.y * a.z, a.z * b.x - b.z * a.x, a.x * b.y - b.x * a.y⟩

end Vec3

/-! ## The external math library -/

/-- The scalar functions the camera takes from the C and GLM libraries. -/
structure Libm (F : Type) where
  sin : F → F
  cos : F → F
  sqrt : F → F
  pi : F

namespace Libm

variable {F : Type} [LinearOrderedField F]

/-- Degrees to radians, `glm::radians`. -/
def radians (m : Libm F) (degrees : F) : F := degrees * (m.pi / 180)

/-- Euclidean length, `glm::length`. -/
def length (m : Libm F) (v : Vec3 F) : F := m.sqrt (Vec3.dot v v)

/-- Euclidean distance, `glm::distance`. -/
def distance (m : Libm F) (a b : Vec3 F) : F := m.length (Vec3.sub b a)

/-- Scaling to unit length, `glm::normalize`: `v * inversesqrt(dot(v, v))`. -/
def normalize (m : Libm F) (v : Vec3 F) : Vec3 F :=
  Vec3.scale v (1 / m.sqrt (Vec3.dot v v))

/-- The laws of exact arithmetic that the proofs rely on. -/
structure Lawful (m : Libm F) : Prop where
  sin_sq_add_cos_sq : ∀ t, m.sin t * m.sin t + m.cos t * m.cos t = 1
  sqrt_nonneg : ∀ t, 0 ≤ m.sqrt t
  mul_self_sqrt : ∀ t, 0 ≤ t → m.sqrt t * m.sqrt t = t
  pi_pos : 0 < m.pi
  cos_pos : ∀ t, -(m.pi / 2) < t → t < m.pi / 2 → 0 < m.cos t
  sin_zero : m.sin 0 = 0
  cos_zero : m.cos 0 = 1

end Libm

/-- The exact real-number math library.  Real `sin`, `cos` and `sqrt` cannot be
evaluated, so this one instance is not executable; every definition of the
camera itself is, for any executable `Libm`. -/
noncomputable def realLibm : Libm ℝ where
  sin := Real.sin
  cos := Real.cos
  sqrt := Real.sqrt
  pi := Real.pi

/-! ## Camera (camera.h) -/

/-- Movement commands, `enum Camera_Movement`. -/
inductive Camera_Movement where
  | UP
  | DOWN
  | FORWARD
  | BACKWARD
  | LEFT
  | RIGHT
deriving DecidableEq, Repr

/-- The data members of `class Camera`. -/
@[ext] structure Camera (F : Type) where
  m_position : Vec3 F
  m_viewUp : Vec3 F
  m_forward : Vec3 F
  m_side : Vec3 F
  m_yawAngle : F
  m_pitchAngle : F
  m_moveSpeed : F
  m_mouseSensitivity : F
  m_zoomSensitivity : F
  m_mouseZoom : F
deriving DecidableEq, Repr

/-- Four-component vector, `glm::vec4`. -/
@[ext] structure Vec4 (F : Type) where
  x : F
  y : F
  z : F
  w : F
deriving DecidableEq, Repr

/-- Four-by-four matrix stored by columns, `glm::mat4` (`M[i]` is column `i`). -/
@[ext] structure Mat4 (F : Type) where
  col0 : Vec4 F
  col1 : Vec4 F
  col2 : Vec4 F
  col3 : Vec4 F
deriving DecidableEq, Repr

section Defs

variable {F : Type} [LinearOrderedField F]

/-- Initial position. -/
def POS : Vec3 F := ⟨0, 3 / 2, 10⟩
/-- Fixed upwards reference. -/
def VIEWUP : Vec3 F := ⟨0, 1, 0⟩
/-- Initial yaw. -/
def YAW : F := 0
/-- Initial pitch. -/
def PITCH : F := 0
/-- Default movement speed. -/
def MOVE_SPEED : F := 5
/-- Default look sensitivity, `0.1f`. -/
def MOUSE_SENSITIVTY : F := 1 / 10
/-- Default zoom sensitivity. -/
def ZOOM_SENSITIVTY : F := 2
/-- Smallest zoom. -/
def MOUSE_ZOOM_MIN : F := 1
/-- Largest zoom. -/
def MOUSE_ZOOM_MAX : F := 80
/-- Largest pitch magnitude. -/
def PITCH_ANGLE_MAX : F := 89

/-- The function `Camera::normalizeAngle`: three independent conditional
assignments, in source order. -/
def normalizeAngle (c : Camera F) : Camera F :=
  let c1 := if c.m_pitchAngle > PITCH_ANGLE_MAX then
      { c with m_pitchAngle := PITCH_ANGLE_MAX } else c
  let c2 := if c1.m_pitchAngle < -PITCH_ANGLE_MAX then
      { c1 with m_pitchAngle := -PITCH_ANGLE_MAX } else c1
  if c2.m_yawAngle < 0 then { c2 with m_yawAngle := c2.m_yawAngle + 360 } else c2

/-- The un-normalized forward vector computed from yaw and pitch (degrees). -/
def newForward (m : Libm F) (yaw pitch : F) : Vec3 F :=
  ⟨m.sin (m.radians yaw) * m.cos (m.radians pitch),
   m.sin (m.radians pitch),
   -m.cos (m.radians yaw) * m.cos (m.radians pitch)⟩

/-- The function `Camera::updateCameraVectors`: forward from the angles, side
from the new forward and `VIEWUP`, up from the new side and the new forward. -/
def updateCameraVectors (m : Libm F) (c : Camera F) : Camera F :=
  let c1 := { c with m_forward := m.normalize (newForward m c.m_yawAngle c.m_pitchAngle) }
  let c2 := { c1 with m_side := m.normalize (Vec3.cross c1.m_forward VIEWUP) }
  { c2 with m_viewUp := m.normalize (Vec3.cross c2.m_side c2.m_forward) }

/-- The four-argument constructor.  `m_forward` and `m_side` are not in the
initializer list; they are written by `updateCameraVectors` before any read,
so the placeholder value is never observed. -/
def Camera4 (m : Libm F) (pos up : Vec3 F) (yaw pitch : F) : Camera F :=
  updateCameraVectors m
    { m_position := pos, m_viewUp := up, m_forward := ⟨0, 0, 0⟩, m_side := ⟨0, 0, 0⟩,
      m_yawAngle := yaw, m_pitchAngle := pitch, m_moveSpeed := MOVE_SPEED,
      m_mouseSensitivity := MOUSE_SENSITIVTY, m_zoomSensitivity := ZOOM_SENSITIVTY,
      m_mouseZoom := MOUSE_ZOOM_MAX / 2 }

/-- The one-argument constructor. -/
def Camera1 (m : Libm F) (pos : Vec3 F) : Camera F :=
  updateCameraVectors m
    { m_position := pos, m_viewUp := VIEWUP, m_forward := ⟨0, 0, 0⟩, m_side := ⟨0, 0, 0⟩,
      m_yawAngle := YAW, m_pitchAngle := PITCH, m_moveSpeed := MOVE_SPEED,
      m_mouseSensitivity := MOUSE_SENSITIVTY, m_zoomSensitivity := ZOOM_SENSITIVTY,
      m_mouseZoom := MOUSE_ZOOM_MAX / 2 }

/-- The default constructor. -/
def Camera0 (m : Libm F) : Camera F :=
  updateCameraVectors m
    { m_position := POS, m_viewUp := VIEWUP, m_forward := ⟨0, 0, 0⟩, m_side := ⟨0, 0, 0⟩,
      m_yawAngle := YAW, m_pitchAngle := PITCH, m_moveSpeed := MOVE_SPEED,
      m_mouseSensitivity := MOUSE_SENSITIVTY, m_zoomSensitivity := ZOOM_SENSITIVTY,
      m_mouseZoom := MOUSE_ZOOM_MAX / 2 }

/-- The function `Camera::handleKeyPress`.  The `default` branch of the
source switch is not reachable for the six enumerators. -/
def handleKeyPress (c : Camera F) (direction : Camera_Movement) (deltaTime : F) : Camera F :=
  let velocity := c.m_moveSpeed * deltaTime
  match direction with
  | .UP => { c with m_position := Vec3.add c.m_position (Vec3.scale c.m_viewUp velocity) }
  | .DOWN => { c with m_position := Vec3.sub c.m_position (Vec3.scale c.m_viewUp velocity) }
  | .FORWARD => { c with m_position := Vec3.add c.m_position (Vec3.scale c.m_forward velocity) }
  | .BACKWARD => { c with m_position := Vec3.sub c.m_position (Vec3.scale c.m_forward velocity) }
  | .LEFT => { c with m_position := Vec3.sub c.m_position (Vec3.scale c.m_side velocity) }
  | .RIGHT => { c with m_position := Vec3.add c.m_position (Vec3.scale c.m_side velocity) }

/-- The function `Camera::handleMouseMove`, in exact arithmetic.  The binary32
rounding of its four float operations on the angles is modelled by
`mouseMoveAngles`. -/
def handleMouseMove (m : Libm F) (c : Camera F) (xoffset yoffset : F) : Camera F :=
  let xRotation := xoffset * c.m_mouseSensitivity
  let yRotation := yoffset * c.m_mouseSensitivity
  let c1 := { c with m_pitchAngle := c.m_pitchAngle + yRotation }
  let c2 := { c1 with m_yawAngle := c1.m_yawAngle + xRotation }
  updateCameraVectors m (normalizeAngle c2)

/-- The function `Camera::handleMouseScroll`. -/
def handleMouseScroll (c : Camera F) (yoffset : F) : Camera F :=
  let zoom := c.m_mouseZoom - ZOOM_SENSITIVTY * yoffset
  if zoom < MOUSE_ZOOM_MIN then { c with m_mouseZoom := MOUSE_ZOOM_MIN }
  else if zoom > MOUSE_ZOOM_MAX then { c with m_mouseZoom := MOUSE_ZOOM_MAX }
  else { c with m_mouseZoom := zoom }

/-- The function `Camera::reset`. -/
def reset (m : Libm F) (c : Camera F) : Camera F :=
  updateCameraVectors m
    { c with m_position := POS, m_mouseZoom := MOUSE_ZOOM_MAX / 2, m_pitchAngle := PITCH,
             m_yawAngle := YAW, m_viewUp := VIEWUP }

/-! ## Call sequences -/

/-- One call of a public mutator, with its arguments. -/
inductive Op (F : Type) where
  | keyPress (direction : Camera_Movement) (deltaTime : F)
  | mouseMove (xoffset yoffset : F)
  | mouseScroll (yoffset : F)
  | reset

/-- Apply one public mutator. -/
def step (m : Libm F) (c : Camera F) : Op F → Camera F
  | .keyPress d dt => handleKeyPress c d dt
  | .mouseMove x y => handleMouseMove m c x y
  | .mouseScroll y => handleMouseScroll c y
  | .reset => reset m c

/-- Apply a sequence of public mutators, first call first. -/
def run (m : Libm F) (c : Camera F) (ops : List (Op F)) : Camera F :=
  ops.foldl (step m) c

/-- One call of a constructor, with its arguments. -/
inductive Ctor (F : Type) where
  | noArgs
  | posOnly (pos : Vec3 F)
  | full (pos up : Vec3 F) (yaw pitch : F)

/-- The camera built by a constructor call. -/
def construct (m : Libm F) : Ctor F → Camera F
  | .noArgs => Camera0 m
  | .posOnly pos => Camera1 m pos
  | .full pos up yaw pitch => Camera4 m pos up yaw pitch

/-- The pitch argument a constructor call stores. -/
def Ctor.pitch : Ctor F → F
  | .noArgs => PITCH
  | .posOnly _ => PITCH
  | .full _ _ _ pitch => pitch

/-- The sequence of `handleMouseMove` calls with the given offsets. -/
def mouseMoves (m : Libm F) (c : Camera F) (moves : List (F × F)) : Camera F :=
  moves.foldl (fun s p => handleMouseMove m s p.1 p.2) c

/-- The accessor `Camera::getZoom`. -/
def getZoom (c : Camera F) : F := c.m_mouseZoom

/-- The accessor `Camera::getPosition`. -/
def getPosition (c : Camera F) : Vec3 F := c.m_position

/-- Matrix times column vector, `M * v` for `glm::mat4` and `glm::vec4`. -/
def Mat4.mulVec (M : Mat4 F) (v : Vec4 F) : Vec4 F :=
  ⟨M.col0.x * v.x + M.col1.x * v.y + M.col2.x * v.z + M.col3.x * v.w,
   M.col0.y * v.x + M.col1.y * v.y + M.col2.y * v.z + M.col3.y * v.w,
   M.col0.z * v.x + M.col1.z * v.y + M.col2.z * v.z + M.col3.z * v.w,
   M.col0.w * v.x + M.col1.w * v.y + M.col2.w * v.z + M.col3.w * v.w⟩

/-- The image of the point `p` (homogeneous coordinate 1) under `M`. -/
def Mat4.transformPoint (M : Mat4 F) (p : Vec3 F) : Vec4 F :=
  M.mulVec ⟨p.x, p.y, p.z, 1⟩

/-- Modelled from the spec: `glm::lookAt` belongs to the GLM library, which is
not in the repository.  The specification calls the result a right-handed
look-at transform built from eye, target and up; this is GLM's right-handed
form: `f = normalize(center - eye)`, `s = normalize(cross(f, up))`,
`u = cross(s, f)`, rows `s`, `u`, `-f` and translation
`(-dot(s, eye), -dot(u, eye), dot(f, eye))`. -/
def lookAt (m : Libm F) (eye center up : Vec3 F) : Mat4 F :=
  let f := m.normalize (Vec3.sub center eye)
  let s := m.normalize (Vec3.cross f up)
  let u := Vec3.cross s f
  { col0 := ⟨s.x, u.x, -f.x, 0⟩,
    col1 := ⟨s.y, u.y, -f.y, 0⟩,
    col2 := ⟨s.z, u.z, -f.z, 0⟩,
    col3 := ⟨-Vec3.dot s eye, -Vec3.dot u eye, Vec3.dot f eye, 1⟩ }

/-- The accessor `Camera::getViewMatrix`. -/
def getViewMatrix (m : Libm F) (c : Camera F) : Mat4 F :=
  lookAt m c.m_position (Vec3.add c.m_position c.m_forward) c.m_viewUp

/-- The view matrix sends the camera position to the origin and the points one
step along forward, up and side to `(0, 0, -1)`, `(0, 1, 0)` and `(1, 0, 0)`. -/
def ViewMapsBasis (m : Libm F) (c : Camera F) : Prop :=
  (getViewMatrix m c).transformPoint c.m_position = ⟨0, 0, 0, 1⟩
    ∧ (getViewMatrix m c).transformPoint (Vec3.add c.m_position c.m_forward) = ⟨0, 0, -1, 1⟩
    ∧ (getViewMatrix m c).transformPoint (Vec3.add c.m_position c.m_viewUp) = ⟨0, 1, 0, 1⟩
    ∧ (getViewMatrix m c).transformPoint (Vec3.add c.m_position c.m_side) = ⟨1, 0, 0, 1⟩

/-- Invariant 4 of the specification: the zoom is within
`[MOUSE_ZOOM_MIN, MOUSE_ZOOM_MAX]`. -/
def ZoomInRange (c : Camera F) : Prop :=
  MOUSE_ZOOM_MIN ≤ c.m_mouseZoom ∧ c.m_mouseZoom ≤ MOUSE_ZOOM_MAX

/-- The three configuration scalars hold their construction values. -/
def ConfigFixed (c : Camera F) : Prop :=
  c.m_moveSpeed = MOVE_SPEED ∧ c.m_mouseSensitivity = MOUSE_SENSITIVTY
    ∧ c.m_zoomSensitivity = ZOOM_SENSITIVTY

/-- The value `clamp(v, lo, hi)` of the specification. -/
def clamp (v lo hi : F) : F := max lo (min hi v)

/-- Invariant 3 of the specification, pitch part: the pitch is within
`[-PITCH_ANGLE_MAX, PITCH_ANGLE_MAX]`. -/
def PitchInRange (c : Camera F) : Prop :=
  -PITCH_ANGLE_MAX ≤ c.m_pitchAngle ∧ c.m_pitchAngle ≤ PITCH_ANGLE_MAX

/-- The calls that run `normalizeAngle` or overwrite the pitch with `PITCH`. -/
def Op.setsPitch : Op F → Bool
  | .mouseMove _ _ => true
  | .reset => true
  | _ => false

/-- Invariant 2 of the specification: the stored side and up vectors are the
ones derived from the stored forward vector and the fixed `VIEWUP`. -/
def BasisEquations (m : Libm F) (c : Camera F) : Prop :=
  c.m_side = m.normalize (Vec3.cross c.m_forward VIEWUP)
    ∧ c.m_viewUp = m.normalize (Vec3.cross c.m_side c.m_forward)

/-- The stored basis is orthonormal (stated through inner products). -/
def Orthonormal (c : Camera F) : Prop :=
  Vec3.dot c.m_forward c.m_forward = 1 ∧ Vec3.dot c.m_side c.m_side = 1
    ∧ Vec3.dot c.m_viewUp c.m_viewUp = 1 ∧ Vec3.dot c.m_forward c.m_side = 0
    ∧ Vec3.dot c.m_forward c.m_viewUp = 0 ∧ Vec3.dot c.m_side c.m_viewUp = 0

/-- The distance a `handleKeyPress` call moves the camera. -/
def keyPressJump (m : Libm F) (c : Camera F) (direction : Camera_Movement) (deltaTime : F) : F :=
  m.distance c.m_position (handleKeyPress c direction deltaTime).m_position

/-! ## Accessor calls -/

/-- The three public accessors of `class Camera`. -/
inductive Accessor where
  | getViewMatrix
  | getZoom
  | getPosition
deriving DecidableEq, Repr

/-- The value an accessor call returns. -/
inductive AccessorResult (F : Type) where
  | matrix (M : Mat4 F)
  | scalar (v : F)
  | point (p : Vec3 F)

/-- One accessor call as a state transformer: the returned value and the
state after the call.  None of the three bodies assigns a member. -/
def callAccessor (m : Libm F) (c : Camera F) : Accessor → AccessorResult F × Camera F
  | .getViewMatrix => (.matrix (getViewMatrix m c), c)
  | .getZoom => (.scalar (getZoom c), c)
  | .getPosition => (.point (getPosition c), c)

/-- The state after a sequence of accessor calls. -/
def callAccessors (m : Libm F) (c : Camera F) (qs : List Accessor) : Camera F :=
  qs.foldl (fun s q => (callAccessor m s q).2) c

/-! ## The second implementation (normalMappingWithModel/camera.h)

The constants `VIEWUP`, `YAW`, `PITCH`, `MOVE_SPEED`, `MOUSE_SENSITIVTY`,
`ZOOM_SENSITIVTY`, `MOUSE_ZOOM_MIN`, `MOUSE_ZOOM_MAX` and `PITCH_ANGLE_MAX` have
the same values in both headers and are shared; only `POS` differs.  The
console output of `handleKeyPress` and `handleMouseScroll` is not modelled. -/

/-- Initial position of the second implementation. -/
def WithModel.POS : Vec3 F := ⟨1 / 2, 2, 10⟩

/-- The function `normalizeAngle` of the second implementation. -/
def WithModel.normalizeAngle (c : Camera F) : Camera F :=
  let c1 := if c.m_pitchAngle > PITCH_ANGLE_MAX then
      { c with m_pitchAngle := PITCH_ANGLE_MAX } else c
  let c2 := if c1.m_pitchAngle < -PITCH_ANGLE_MAX then
      { c1 with m_pitchAngle := -PITCH_ANGLE_MAX } else c1
  if c2.m_yawAngle < 0 then { c2 with m_yawAngle := c2.m_yawAngle + 360 } else c2

/-- The local `newSide` that the second `updateCameraVectors` computes and
never uses. -/
def WithModel.newSide (m : Libm F) (yaw : F) : Vec3 F :=
  ⟨-m.cos (m.radians yaw), 0, m.sin (m.radians yaw)⟩

/-- The function `updateCameraVectors` of the second implementation. -/
def WithModel.updateCameraVectors (m : Libm F) (c : Camera F) : Camera F :=
  let c1 := { c with m_forward := m.normalize (newForward m c.m_yawAngle c.m_pitchAngle) }
  let _newSide := WithModel.newSide m c1.m_yawAngle
  let c2 := { c1 with m_side := m.normalize (Vec3.cross c1.m_forward VIEWUP) }
  { c2 with m_viewUp := m.normalize (Vec3.cross c2.m_side c2.m_forward) }

/-- The four-argument constructor of the second implementation. -/
def WithModel.Camera4 (m : Libm F) (pos up : Vec3 F) (yaw pitch : F) : Camera F :=
  WithModel.updateCameraVectors m
    { m_position := pos, m_viewUp := up, m_forward := ⟨0, 0, 0⟩, m_side := ⟨0, 0, 0⟩,
      m_yawAngle := yaw, m_pitchAngle := pitch, m_moveSpeed := MOVE_SPEED,
      m_mouseSensitivity := MOUSE_SENSITIVTY, m_zoomSensitivity := ZOOM_SENSITIVTY,
      m_mouseZoom := MOUSE_ZOOM_MAX / 2 }

/-- The one-argument constructor of the second implementation. -/
def WithModel.Camera1 (m : Libm F) (pos : Vec3 F) : Camera F :=
  WithModel.updateCameraVectors m
    { m_position := pos, m_viewUp := VIEWUP, m_forward := ⟨0, 0, 0⟩, m_side := ⟨0, 0, 0⟩,
      m_yawAngle := YAW, m_pitchAngle := PITCH, m_moveSpeed := MOVE_SPEED,
      m_mouseSensitivity := MOUSE_SENSITIVTY, m_zoomSensitivity := ZOOM_SENSITIVTY,
      m_mouseZoom := MOUSE_ZOOM_MAX / 2 }

/-- The default constructor of the second implementation. -/
def WithModel.Camera0 (m : Libm F) : Camera F :=
  WithModel.updateCameraVectors m
    { m_position := WithModel.POS, m_viewUp := VIEWUP, m_forward := ⟨0, 0, 0⟩,
      m_side := ⟨0, 0, 0⟩, m_yawAngle := YAW, m_pitchAngle := PITCH,
      m_moveSpeed := MOVE_SPEED, m_mouseSensitivity := MOUSE_SENSITIVTY,
      m_zoomSensitivity := ZOOM_SENSITIVTY, m_mouseZoom := MOUSE_ZOOM_MAX / 2 }

/-- The function `handleKeyPress` of the second implementation. -/
def WithModel.handleKeyPress (c : Camera F) (direction : Camera_Movement) (deltaTime : F) :
    Camera F :=
  let velocity := c.m_moveSpeed * deltaTime
  match direction with
  | .UP => { c with m_position := Vec3.add c.m_position (Vec3.scale c.m_viewUp velocity) }
  | .DOWN => { c with m_position := Vec3.sub c.m_position (Vec3.scale c.m_viewUp velocity) }
  | .FORWARD => { c with m_position := Vec3.add c.m_position (Vec3.scale c.m_forward velocity) }
  | .BACKWARD => { c with m_position := Vec3.sub c.m_position (Vec3.scale c.m_forward velocity) }
  | .LEFT => { c with m_position := Vec3.sub c.m_position (Vec3.scale c.m_side velocity) }
  | .RIGHT => { c with m_position := Vec3.add c.m_position (Vec3.scale c.m_side velocity) }

/-- The function `handleMouseMove` of the second implementation. -/
def WithModel.handleMouseMove (m : Libm F) (c : Camera F) (xoffset yoffset : F) : Camera F :=
  let xRotation := xoffset * c.m_mouseSensitivity
  let yRotation := yoffset * c.m_mouseSensitivity
  let c1 := { c with m_pitchAngle := c.m_pitchAngle + yRotation }
  let c2 := { c1 with m_yawAngle := c1.m_yawAngle + xRotation }
  WithModel.updateCameraVectors m (WithModel.normalizeAngle c2)

/-- The function `handleMouseScroll` of the second implementation. -/
def WithModel.handleMouseScroll (c : Camera F) (yoffset : F) : Camera F :=
  let zoom := c.m_mouseZoom - ZOOM_SENSITIVTY * yoffset
  if zoom < MOUSE_ZOOM_MIN then { c with m_mouseZoom := MOUSE_ZOOM_MIN }
  else if zoom > MOUSE_ZOOM_MAX then { c with m_mouseZoom := MOUSE_ZOOM_MAX }
  else { c with m_mouseZoom := zoom }

/-- The function `reset` of the second implementation. -/
def WithModel.reset (m : Libm F) (c : Camera F) : Camera F :=
  WithModel.updateCameraVectors m
    { c with m_position := WithModel.POS, m_mouseZoom := MOUSE_ZOOM_MAX / 2,
             m_pitchAngle := PITCH, m_yawAngle := YAW, m_viewUp := VIEWUP }

/-- Apply one public mutator of the second implementation. -/
def WithModel.step (m : Libm F) (c : Camera F) : Op F → Camera F
  | .keyPress d dt => WithModel.handleKeyPress c d dt
  | .mouseMove x y => WithModel.handleMouseMove m c x y
  | .mouseScroll y => WithModel.handleMouseScroll c y
  | .reset => WithModel.reset m c

/-- Apply a sequence of public mutators of the second implementation. -/
def WithModel.run (m : Libm F) (c : Camera F) (ops : List (Op F)) : Camera F :=
  ops.foldl (WithModel.step m) c

/-- The call is `reset`. -/
def Op.isReset : Op F → Bool
  | .reset => true
  | _ => false

/-! ## Application callbacks (application.cpp)

Key codes, actions and modifier bits are the `int` values of GLFW/glfw3.h, a
library header that is not in the repository.  Console output is not modelled. -/

/-- Library constant `GLFW_RELEASE`. -/
def GLFW_RELEASE : Int := 0
/-- Library constant `GLFW_PRESS`. -/
def GLFW_PRESS : Int := 1
/-- Library constant `GLFW_REPEAT`. -/
def GLFW_REPEAT : Int := 2
/-- Library constant `GLFW_KEY_SPACE`. -/
def GLFW_KEY_SPACE : Int := 32
/-- Library constant `GLFW_KEY_A`. -/
def GLFW_KEY_A : Int := 65
/-- Library constant `GLFW_KEY_D`. -/
def GLFW_KEY_D : Int := 68
/-- Library constant `GLFW_KEY_N`. -/
def GLFW_KEY_N : Int := 78
/-- Library constant `GLFW_KEY_P`. -/
def GLFW_KEY_P : Int := 80
/-- Library constant `GLFW_KEY_R`. -/
def GLFW_KEY_R : Int := 82
/-- Library constant `GLFW_KEY_S`. -/
def GLFW_KEY_S : Int := 83
/-- Library constant `GLFW_KEY_W`. -/
def GLFW_KEY_W : Int := 87
/-- Library constant `GLFW_KEY_ESCAPE`. -/
def GLFW_KEY_ESCAPE : Int := 256
/-- Library constant `GLFW_MOD_SHIFT`, bit 0 of the modifier bit field. -/
def GLFW_MOD_SHIFT : Int := 1
/-- Library constant `GLFW_MOD_CONTROL`, bit 1 of the modifier bit field. -/
def GLFW_MOD_CONTROL : Int := 2

/-- The Shift bit (bit 0) is set in the modifier bit field `mods`. -/
def shiftHeld (mods : Int) : Prop := mods % 2 = 1

/-- The global variables of application.cpp that the callbacks read or write,
with the close flag of the window. -/
structure App (F : Type) where
  camera : Camera F
  firstMouseMove : Bool
  lastX : F
  lastY : F
  deltaTime : F
  lastFrame : F
  bNormalMapping : Bool
  bParallaxMapping : Bool
  bRotate : Bool
  windowShouldClose : Bool

/-- The globals at program start: `lastX` and `lastY` have no initializer and
are zero-initialized. -/
def App.init (m : Libm F) : App F :=
  { camera := Camera0 m, firstMouseMove := true, lastX := 0, lastY := 0, deltaTime := 0,
    lastFrame := 0, bNormalMapping := true, bParallaxMapping := true, bRotate := true,
    windowShouldClose := false }

/-- The first switch of `key_callback`: the actions taken on `GLFW_PRESS` only. -/
def keyPressActions (m : Libm F) (a : App F) (key action : Int) : App F :=
  if action = GLFW_PRESS then
    if key = GLFW_KEY_ESCAPE then { a with windowShouldClose := true }
    else if key = GLFW_KEY_N then { a with bNormalMapping := !a.bNormalMapping }
    else if key = GLFW_KEY_P then { a with bParallaxMapping := !a.bParallaxMapping }
    else if key = GLFW_KEY_SPACE then { a with bRotate := !a.bRotate }
    else if key = GLFW_KEY_R then { a with camera := reset m a.camera }
    else a
  else a

/-- The second switch of `key_callback`: the direction passed to
`handleKeyPress`, if any.  The inner `switch (mods)` has the single label
`case(1)`. -/
def movementCall (key mods : Int) : Option Camera_Movement :=
  if key = GLFW_KEY_W then
    (if mods = 1 then some Camera_Movement.FORWARD else some Camera_Movement.UP)
  else if key = GLFW_KEY_A then some Camera_Movement.LEFT
  else if key = GLFW_KEY_S then
    (if mods = 1 then some Camera_Movement.BACKWARD else some Camera_Movement.DOWN)
  else if key = GLFW_KEY_D then some Camera_Movement.RIGHT
  else none

/-- The function `key_callback`: the press actions, then the movement call
with the global `deltaTime`, whatever the action. -/
def key_callback (m : Libm F) (a : App F) (key scancode action mods : Int) : App F :=
  let _ := scancode
  let a1 := keyPressActions m a key action
  match movementCall key mods with
  | some direction => { a1 with camera := handleKeyPress a1.camera direction a1.deltaTime }
  | none => a1

/-- The function `mouse_move_callback`, in exact arithmetic.  The narrowing of
the `double` cursor position to the `GLfloat` globals `lastX`, `lastY` and to
the `GLfloat` offsets is modelled by `cursorCacheAfter` and `cursorOffsets`. -/
def mouse_move_callback (m : Libm F) (a : App F) (xpos ypos : F) : App F :=
  let a1 := if a.firstMouseMove then
      { a with lastX := xpos, lastY := ypos, firstMouseMove := false } else a
  let xoffset := xpos - a1.lastX
  let yoffset := a1.lastY - ypos
  let a2 := { a1 with lastX := xpos, lastY := ypos }
  { a2 with camera := handleMouseMove m a2.camera xoffset yoffset }

/-- The function `mouse_scroll_callback`. -/
def mouse_scroll_callback (a : App F) (xoffset yoffset : F) : App F :=
  let _ := xoffset
  { a with camera := handleMouseScroll a.camera yoffset }

/-- The frame-time update at the top of the main loop. -/
def frameUpdate (a : App F) (currentFrame : F) : App F :=
  { a with deltaTime := currentFrame - a.lastFrame, lastFrame := currentFrame }

/-- Something that changes the application state: a callback or a new frame. -/
inductive Event (F : Type) where
  | key (key scancode action mods : Int)
  | cursor (xpos ypos : F)
  | scroll (xoffset yoffset : F)
  | frame (currentFrame : F)

/-- Apply one event. -/
def App.step (m : Libm F) (a : App F) : Event F → App F
  | .key key scancode action mods => key_callback m a key scancode action mods
  | .cursor xpos ypos => mouse_move_callback m a xpos ypos
  | .scroll xoffset yoffset => mouse_scroll_callback a xoffset yoffset
  | .frame currentFrame => frameUpdate a currentFrame

/-- Apply a sequence of events, first event first. -/
def App.run (m : Libm F) (a : App F) (events : List (Event F)) : App F :=
  events.foldl (App.step m) a

/-! ## DDS loading (texture.h)

`unsigned int` is modelled as a natural number reduced modulo `2 ^ 32`. -/

/-- The width of `unsigned int`. -/
def UINT_MOD : Nat := 2 ^ 32

/-- The macro `FOURCC_DXT1`. -/
def FOURCC_DXT1 : Nat := 0x31545844
/-- The macro `FOURCC_DXT3`. -/
def FOURCC_DXT3 : Nat := 0x33545844
/-- The macro `FOURCC_DXT5`. -/
def FOURCC_DXT5 : Nat := 0x35545844

/-- Library constant `GL_COMPRESSED_RGBA_S3TC_DXT1_EXT`. -/
def GL_COMPRESSED_RGBA_S3TC_DXT1_EXT : Nat := 0x83F1
/-- Library constant `GL_COMPRESSED_RGBA_S3TC_DXT3_EXT`. -/
def GL_COMPRESSED_RGBA_S3TC_DXT3_EXT : Nat := 0x83F2
/-- Library constant `GL_COMPRESSED_RGBA_S3TC_DXT5_EXT`. -/
def GL_COMPRESSED_RGBA_S3TC_DXT5_EXT : Nat := 0x83F3

/-- The five header fields `loadDDS` reads, each an `unsigned int`. -/
structure DDSHeader where
  height : Nat
  width : Nat
  linearSize : Nat
  mipMapCount : Nat
  fourCC : Nat
deriving DecidableEq, Repr

/-- The buffer size `loadDDS` allocates and reads. -/
def ddsBufsize (h : DDSHeader) : Nat :=
  if h.mipMapCount > 1 then (h.linearSize * 2) % UINT_MOD else h.linearSize

/-- The `format` chosen by the switch on `fourCC`; `none` is the `default`
branch, which returns 0 without uploading. -/
def ddsFormat (fourCC : Nat) : Option Nat :=
  if fourCC = FOURCC_DXT1 then some GL_COMPRESSED_RGBA_S3TC_DXT1_EXT
  else if fourCC = FOURCC_DXT3 then some GL_COMPRESSED_RGBA_S3TC_DXT3_EXT
  else if fourCC = FOURCC_DXT5 then some GL_COMPRESSED_RGBA_S3TC_DXT5_EXT
  else none

/-- The `blockSize` derived from `format`. -/
def ddsBlockSize (format : Nat) : Nat :=
  if format = GL_COMPRESSED_RGBA_S3TC_DXT1_EXT then 8 else 16

/-- The size of one mip level as computed in the loop body. -/
def ddsLevelSize (blockSize width height : Nat) : Nat :=
  ((((width + 3) % UINT_MOD / 4) * ((height + 3) % UINT_MOD / 4)) % UINT_MOD * blockSize)
    % UINT_MOD

/-- The mip loop of `loadDDS`: the `(offset, size)` pair of the buffer range
each iteration hands to `glCompressedTexImage2D`.  `remaining` is
`mipMapCount - level`. -/
def ddsMipLoop (blockSize : Nat) : (remaining width height offset : Nat) → List (Nat × Nat)
  | 0, _, _, _ => []
  | remaining + 1, width, height, offset =>
    if width ≠ 0 ∨ height ≠ 0 then
      let size := ddsLevelSize blockSize width height
      let width1 := if width / 2 < 1 then 1 else width / 2
      let height1 := if height / 2 < 1 then 1 else height / 2
      (offset, size) :: ddsMipLoop blockSize remaining width1 height1 ((offset + size) % UINT_MOD)
    else []

/-- The part of `loadDDS` after the header is parsed: the buffer size and the
buffer ranges read by the mip loop, or `none` for an unsupported `fourCC`. -/
def loadDDS (h : DDSHeader) : Option (Nat × List (Nat × Nat)) :=
  match ddsFormat h.fourCC with
  | none => none
  | some format =>
    some (ddsBufsize h, ddsMipLoop (ddsBlockSize format) h.mipMapCount h.width h.height 0)

/-- The preconditions of the buffer-size claim on a header: positive
dimensions, a supported `fourCC`, `linearSize` equal to the level-0 size and
`mipMapCount` at most the full chain length. -/
def DDSWellFormed (h : DDSHeader) : Prop :=
  1 ≤ h.width ∧ 1 ≤ h.height
    ∧ (h.fourCC = FOURCC_DXT1 ∨ h.fourCC = FOURCC_DXT3 ∨ h.fourCC = FOURCC_DXT5)
    ∧ h.linearSize
        = ((h.width + 3) / 4) * ((h.height + 3) / 4)
            * (if h.fourCC = FOURCC_DXT1 then 8 else 16)
    ∧ h.mipMapCount ≤ Nat.log 2 (max h.width h.height) + 1

/-- The three vectors `updateCameraVectors` normalizes in state `c` are
non-zero, and so are the three square roots it divides by. -/
def NormalizationDefined (m : Libm F) (c : Camera F) : Prop :=
  newForward m c.m_yawAngle c.m_pitchAngle ≠ ⟨0, 0, 0⟩
    ∧ Vec3.cross (updateCameraVectors m c).m_forward VIEWUP ≠ ⟨0, 0, 0⟩
    ∧ Vec3.cross (updateCameraVectors m c).m_side (updateCameraVectors m c).m_forward
        ≠ ⟨0, 0, 0⟩
    ∧ m.sqrt (Vec3.dot (newForward m c.m_yawAngle c.m_pitchAngle)
        (newForward m c.m_yawAngle c.m_pitchAngle)) ≠ 0
    ∧ m.sqrt (Vec3.dot (Vec3.cross (updateCameraVectors m c).m_forward VIEWUP)
        (Vec3.cross (updateCameraVectors m c).m_forward VIEWUP)) ≠ 0
    ∧ m.sqrt (Vec3.dot
        (Vec3.cross (updateCameraVectors m c).m_side (updateCameraVectors m c).m_forward)
        (Vec3.cross (updateCameraVectors m c).m_side (updateCameraVectors m c).m_forward)) ≠ 0

/-- The closed form of the derived side and up vectors in terms of the stored
angles: side is `(cos yaw, 0, sin yaw)`, up is
`(-sin yaw * sin pitch, cos pitch, cos yaw * sin pitch)`, side is horizontal
and up points upwards. -/
def ClosedFormBasis (m : Libm F) (c : Camera F) : Prop :=
  c.m_side = ⟨m.cos (m.radians c.m_yawAngle), 0, m.sin (m.radians c.m_yawAngle)⟩
    ∧ c.m_viewUp
        = ⟨-m.sin (m.radians c.m_yawAngle) * m.sin (m.radians c.m_pitchAngle),
           m.cos (m.radians c.m_pitchAngle),
           m.cos (m.radians c.m_yawAngle) * m.sin (m.radians c.m_pitchAngle)⟩
    ∧ c.m_side.y = 0
    ∧ 0 < c.m_viewUp.y

/-- The yaw and pitch stored by `Camera::handleMouseMove` (the two products,
the two additions and `normalizeAngle`), with the result of every float
operation passed through `fl`: the identity for exact arithmetic, `roundF32`
for the program's `GLfloat`.  `sens` is `m_mouseSensitivity`. -/
def mouseMoveAngles (fl : F → F) (sens yaw pitch xoffset yoffset : F) : F × F :=
  let xRotation := fl (xoffset * sens)
  let yRotation := fl (yoffset * sens)
  let pitch1 := fl (pitch + yRotation)
  let yaw1 := fl (yaw + xRotation)
  let pitch2 := if pitch1 > PITCH_ANGLE_MAX then PITCH_ANGLE_MAX else pitch1
  let pitch3 := if pitch2 < -PITCH_ANGLE_MAX then -PITCH_ANGLE_MAX else pitch2
  let yaw2 := if yaw1 < 0 then fl (yaw1 + 360) else yaw1
  (yaw2, pitch3)

/-- The globals `firstMouseMove`, `lastX` and `lastY` of application.cpp. -/
structure CursorCache (F : Type) where
  firstMouseMove : Bool
  lastX : F
  lastY : F

/-- The globals `firstMouseMove`, `lastX`, `lastY` after `mouse_move_callback`:
the `double` position is narrowed by `toFloat` when stored. -/
def cursorCacheAfter (toFloat : F → F) (s : CursorCache F) (xpos ypos : F) : CursorCache F :=
  let s1 : CursorCache F := if s.firstMouseMove then
      { firstMouseMove := false, lastX := toFloat xpos, lastY := toFloat ypos } else s
  { s1 with lastX := toFloat xpos, lastY := toFloat ypos }

/-- The `(xoffset, yoffset)` that `mouse_move_callback` passes to
`handleMouseMove`: each difference is taken in `double` (`toDouble`) and
narrowed to `GLfloat` (`toFloat`). -/
def cursorOffsets (toFloat toDouble : F → F) (s : CursorCache F) (xpos ypos : F) : F × F :=
  let s1 : CursorCache F := if s.firstMouseMove then
      { firstMouseMove := false, lastX := toFloat xpos, lastY := toFloat ypos } else s
  (toFloat (toDouble (xpos - s1.lastX)), toFloat (toDouble (s1.lastY - ypos)))

/-- The cursor cache and the camera angles of the running application. -/
structure LookState where
  cache : CursorCache ℚ
  yaw : ℚ
  pitch : ℚ

/-- The cursor cache and camera angles at program start: `Camera()` has yaw 0
and pitch 0. -/
def LookState.init : LookState :=
  { cache := { firstMouseMove := true, lastX := 0, lastY := 0 }, yaw := 0, pitch := 0 }

end Defs

/-! ## Vector algebra -/

section VecLemmas

variable {F : Type} [LinearOrderedField F]

theorem Vec3.dot_self_nonneg (v : Vec3 F) : 0 ≤ Vec3.dot v v := by
  simp only [Vec3.dot]
  nlinarith [mul_self_nonneg v.x, mul_self_nonneg v.y, mul_self_nonneg v.z]

theorem Vec3.dot_scale_scale (a b : Vec3 F) (s t : F) :
    Vec3.dot (Vec3.scale a s) (Vec3.scale b t) = s * t * Vec3.dot a b := by
  simp only [Vec3.dot, Vec3.scale]; ring

theorem Vec3.dot_scale_right (a b : Vec3 F) (t : F) :
    Vec3.dot a (Vec3.scale b t) = t * Vec3.dot a b := by
  simp only [Vec3.dot, Vec3.scale]; ring

theorem Vec3.dot_comm (a b : Vec3 F) : Vec3.dot a b = Vec3.dot b a := by
  simp only [Vec3.dot]; ring

theorem updateCameraVectors_forward_eq (m : Libm F) (c : Camera F) :
    (updateCameraVectors m c).m_forward
      = m.normalize (newForward m c.m_yawAngle c.m_pitchAngle) := rfl

theorem Vec3.dot_cross_left (a b : Vec3 F) : Vec3.dot a (Vec3.cross a b) = 0 := by
  simp only [Vec3.dot, Vec3.cross]; ring

theorem Vec3.dot_cross_right (a b : Vec3 F) : Vec3.dot b (Vec3.cross a b) = 0 := by
  simp only [Vec3.dot, Vec3.cross]; ring

/-- Lagrange's identity for the cross product. -/
theorem Vec3.dot_cross_self (a b : Vec3 F) :
    Vec3.dot (Vec3.cross a b) (Vec3.cross a b)
      = Vec3.dot a a * Vec3.dot b b - Vec3.dot a b * Vec3.dot a b := by
  simp only [Vec3.dot, Vec3.cross]; ring

theorem Vec3.dot_cross_VIEWUP (f : Vec3 F) :
    Vec3.dot (Vec3.cross f VIEWUP) (Vec3.cross f VIEWUP) = f.x * f.x + f.z * f.z := by
  simp only [Vec3.dot, Vec3.cross, VIEWUP]; ring

end VecLemmas

/-! ## Consequences of the arithmetic laws -/

section LibmLemmas

variable {F : Type} [LinearOrderedField F] {m : Libm F}

theorem Libm.Lawful.sqrt_one (hm : m.Lawful) : m.sqrt 1 = 1 := by
  have h1 := hm.mul_self_sqrt 1 zero_le_one
  have h2 := hm.sqrt_nonneg 1
  nlinarith

theorem Libm.Lawful.sqrt_mul_self (hm : m.Lawful) (t : F) : m.sqrt (t * t) = |t| := by
  have h1 := hm.mul_self_sqrt (t * t) (mul_self_nonneg t)
  have h2 := hm.sqrt_nonneg (t * t)
  have h3 : |t| * |t| = t * t := abs_mul_abs_self t
  have h4 : 0 ≤ |t| := abs_nonneg t
  have h5 : (m.sqrt (t * t) - |t|) * (m.sqrt (t * t) + |t|) = 0 := by
    rw [← sub_eq_zero] at h1 h3; linear_combination h1 - h3
  rcases mul_eq_zero.mp h5 with h | h
  · linarith
  · have h6 : |t| = 0 := by linarith
    have h7 : m.sqrt (t * t) = 0 := by linarith
    rw [h6, h7]

theorem Libm.Lawful.sqrt_ne_zero (hm : m.Lawful) {t : F} (ht : t ≠ 0) (h0 : 0 ≤ t) :
    m.sqrt t ≠ 0 := by
  intro h
  have h1 := hm.mul_self_sqrt t h0
  rw [h] at h1
  exact ht (by rw [← h1]; ring)

theorem Libm.Lawful.normalize_of_unit (hm : m.Lawful) {v : Vec3 F}
    (hv : Vec3.dot v v = 1) : m.normalize v = v := by
  simp only [Libm.normalize, hv, hm.sqrt_one, Vec3.scale]
  ext <;> simp

theorem Libm.Lawful.dot_normalize (hm : m.Lawful) {v : Vec3 F}
    (hv : Vec3.dot v v ≠ 0) : Vec3.dot (m.normalize v) (m.normalize v) = 1 := by
  have h0 := Vec3.dot_self_nonneg v
  have hs := hm.sqrt_ne_zero hv h0
  have h1 := hm.mul_self_sqrt _ h0
  rw [Libm.normalize, Vec3.dot_scale_scale]
  field_simp
  rw [h1]

theorem Libm.Lawful.cos_radians_pos (hm : m.Lawful) {d : F}
    (h1 : -PITCH_ANGLE_MAX ≤ d) (h2 : d ≤ PITCH_ANGLE_MAX) : 0 < m.cos (m.radians d) := by
  have hp := hm.pi_pos
  simp only [PITCH_ANGLE_MAX] at h1 h2
  apply hm.cos_pos
  · simp only [Libm.radians]; nlinarith
  · simp only [Libm.radians]; nlinarith

theorem Libm.Lawful.dot_newForward (hm : m.Lawful) (yaw pitch : F) :
    Vec3.dot (newForward m yaw pitch) (newForward m yaw pitch) = 1 := by
  have hy := hm.sin_sq_add_cos_sq (m.radians yaw)
  have hp := hm.sin_sq_add_cos_sq (m.radians pitch)
  simp only [Vec3.dot, newForward]
  linear_combination (m.cos (m.radians pitch) * m.cos (m.radians pitch)) * hy + hp

theorem Libm.Lawful.update_forward (hm : m.Lawful) (c : Camera F) :
    (updateCameraVectors m c).m_forward = newForward m c.m_yawAngle c.m_pitchAngle := by
  rw [updateCameraVectors_forward_eq, hm.normalize_of_unit (hm.dot_newForward _ _)]

/-- With a non-degenerate pitch the derived basis is orthonormal. -/
theorem Libm.Lawful.update_orthonormal (hm : m.Lawful) (c : Camera F)
    (hc : m.cos (m.radians c.m_pitchAngle) ≠ 0) :
    Orthonormal (updateCameraVectors m c) := by
  have hf := hm.update_forward c
  have hff : Vec3.dot (updateCameraVectors m c).m_forward
      (updateCameraVectors m c).m_forward = 1 := by
    rw [hf]; exact hm.dot_newForward _ _
  have hside : (updateCameraVectors m c).m_side
      = m.normalize (Vec3.cross (updateCameraVectors m c).m_forward VIEWUP) := rfl
  have hup : (updateCameraVectors m c).m_viewUp
      = m.normalize (Vec3.cross (updateCameraVectors m c).m_side
          (updateCameraVectors m c).m_forward) := rfl
  have hcross : Vec3.dot (Vec3.cross (updateCameraVectors m c).m_forward VIEWUP)
      (Vec3.cross (updateCameraVectors m c).m_forward VIEWUP) ≠ 0 := by
    rw [Vec3.dot_cross_VIEWUP, hf]
    have hy := hm.sin_sq_add_cos_sq (m.radians c.m_yawAngle)
    have hsq : m.cos (m.radians c.m_pitchAngle) * m.cos (m.radians c.m_pitchAngle) ≠ 0 :=
      mul_ne_zero hc hc
    have e : (newForward m c.m_yawAngle c.m_pitchAngle).x
          * (newForward m c.m_yawAngle c.m_pitchAngle).x
        + (newForward m c.m_yawAngle c.m_pitchAngle).z
          * (newForward m c.m_yawAngle c.m_pitchAngle).z
        = m.cos (m.radians c.m_pitchAngle) * m.cos (m.radians c.m_pitchAngle) := by
      simp only [newForward]
      linear_combination
        (m.cos (m.radians c.m_pitchAngle) * m.cos (m.radians c.m_pitchAngle)) * hy
    rw [e]; exact hsq
  have hss : Vec3.dot (updateCameraVectors m c).m_side (updateCameraVectors m c).m_side = 1 := by
    rw [hside]; exact hm.dot_normalize hcross
  have hfs : Vec3.dot (updateCameraVectors m c).m_forward (updateCameraVectors m c).m_side
      = 0 := by
    rw [hside, Libm.normalize, Vec3.dot_scale_right, Vec3.dot_cross_left, mul_zero]
  have hsf : Vec3.dot (updateCameraVectors m c).m_side (updateCameraVectors m c).m_forward
      = 0 := by
    rw [Vec3.dot_comm]; exact hfs
  have hcross2 : Vec3.dot (Vec3.cross (updateCameraVectors m c).m_side
        (updateCameraVectors m c).m_forward)
      (Vec3.cross (updateCameraVectors m c).m_side (updateCameraVectors m c).m_forward)
      = 1 := by
    rw [Vec3.dot_cross_self, hss, hff, hsf]; ring
  refine ⟨hff, hss, ?_, hfs, ?_, ?_⟩
  · rw [hup]; exact hm.dot_normalize (by rw [hcross2]; exact one_ne_zero)
  · rw [hup, Libm.normalize, Vec3.dot_scale_right, Vec3.dot_cross_right, mul_zero]
  · rw [hup, Libm.normalize, Vec3.dot_scale_right, Vec3.dot_cross_left, mul_zero]

theorem Libm.Lawful.update_orthonormal_of_pitchInRange (hm : m.Lawful) (c : Camera F)
    (hc : PitchInRange c) : Orthonormal (updateCameraVectors m c) :=
  hm.update_orthonormal c (ne_of_gt (hm.cos_radians_pos hc.1 hc.2))

theorem Libm.Lawful.length_of_unit (hm : m.Lawful) {v : Vec3 F} (hv : Vec3.dot v v = 1) :
    m.length v = 1 := by
  rw [Libm.length, hv, hm.sqrt_one]

end LibmLemmas

theorem realLibm_lawful : realLibm.Lawful where
  sin_sq_add_cos_sq t := by
    have h := Real.sin_sq_add_cos_sq t
    simp only [realLibm]; nlinarith
  sqrt_nonneg t := Real.sqrt_nonneg t
  mul_self_sqrt t ht := Real.mul_self_sqrt ht
  pi_pos := Real.pi_pos
  cos_pos t h1 h2 := Real.cos_pos_of_mem_Ioo ⟨h1, h2⟩
  sin_zero := Real.sin_zero
  cos_zero := Real.cos_zero

/-! ## Field-level behaviour of the operations -/

section OpLemmas

variable {F : Type} [LinearOrderedField F] {m : Libm F}

@[simp] theorem updateCameraVectors_yaw (c : Camera F) :
    (updateCameraVectors m c).m_yawAngle = c.m_yawAngle := rfl

@[simp] theorem updateCameraVectors_pitch (c : Camera F) :
    (updateCameraVectors m c).m_pitchAngle = c.m_pitchAngle := rfl

@[simp] theorem updateCameraVectors_position (c : Camera F) :
    (updateCameraVectors m c).m_position = c.m_position := rfl

@[simp] theorem updateCameraVectors_moveSpeed (c : Camera F) :
    (updateCameraVectors m c).m_moveSpeed = c.m_moveSpeed := rfl

@[simp] theorem updateCameraVectors_mouseZoom (c : Camera F) :
    (updateCameraVectors m c).m_mouseZoom = c.m_mouseZoom := rfl

theorem updateCameraVectors_side (c : Camera F) :
    (updateCameraVectors m c).m_side
      = m.normalize (Vec3.cross (updateCameraVectors m c).m_forward VIEWUP) := rfl

/-- The result of `updateCameraVectors` does not read the old `m_viewUp`,
`m_forward` or `m_side`. -/
theorem updateCameraVectors_congr (c d : Camera F)
    (hpos : c.m_position = d.m_position) (hyaw : c.m_yawAngle = d.m_yawAngle)
    (hpitch : c.m_pitchAngle = d.m_pitchAngle) (hspeed : c.m_moveSpeed = d.m_moveSpeed)
    (hsens : c.m_mouseSensitivity = d.m_mouseSensitivity)
    (hzs : c.m_zoomSensitivity = d.m_zoomSensitivity)
    (hzoom : c.m_mouseZoom = d.m_mouseZoom) :
    updateCameraVectors m c = updateCameraVectors m d := by
  simp only [updateCameraVectors, hpos, hyaw, hpitch, hspeed, hsens, hzs, hzoom]

theorem normalizeAngle_pitch (c : Camera F) :
    (normalizeAngle c).m_pitchAngle
      = clamp c.m_pitchAngle (-PITCH_ANGLE_MAX) PITCH_ANGLE_MAX := by
  have h89 : (-PITCH_ANGLE_MAX : F) < PITCH_ANGLE_MAX := by
    simp only [PITCH_ANGLE_MAX]; norm_num
  simp only [normalizeAngle, clamp]
  by_cases h1 : c.m_pitchAngle > PITCH_ANGLE_MAX
  · have h2 : ¬ (PITCH_ANGLE_MAX : F) < -PITCH_ANGLE_MAX := not_lt.mpr h89.le
    simp only [h1, if_true, h2, if_false]
    rw [min_eq_left h1.le, max_eq_right h89.le]
    split_ifs <;> rfl
  · simp only [h1, if_false]
    rw [min_eq_right (not_lt.mp h1)]
    by_cases h2 : c.m_pitchAngle < -PITCH_ANGLE_MAX
    · simp only [h2, if_true]
      rw [max_eq_left h2.le]
      split_ifs <;> rfl
    · simp only [h2, if_false]
      rw [max_eq_right (not_lt.mp h2)]
      split_ifs <;> rfl

theorem normalizeAngle_yaw (c : Camera F) :
    (normalizeAngle c).m_yawAngle
      = if c.m_yawAngle < 0 then c.m_yawAngle + 360 else c.m_yawAngle := by
  simp only [normalizeAngle]
  split_ifs <;> rfl

theorem clamp_mem (v lo hi : F) (h : lo ≤ hi) : lo ≤ clamp v lo hi ∧ clamp v lo hi ≤ hi :=
  ⟨le_max_left _ _, max_le h (min_le_left _ _)⟩

theorem handleMouseMove_pitch (c : Camera F) (xoffset yoffset : F) :
    (handleMouseMove m c xoffset yoffset).m_pitchAngle
      = clamp (c.m_pitchAngle + yoffset * c.m_mouseSensitivity)
          (-PITCH_ANGLE_MAX) PITCH_ANGLE_MAX := by
  simp only [handleMouseMove, updateCameraVectors_pitch, normalizeAngle_pitch]

theorem handleMouseMove_yaw (c : Camera F) (xoffset yoffset : F) :
    (handleMouseMove m c xoffset yoffset).m_yawAngle
      = if c.m_yawAngle + xoffset * c.m_mouseSensitivity < 0
        then c.m_yawAngle + xoffset * c.m_mouseSensitivity + 360
        else c.m_yawAngle + xoffset * c.m_mouseSensitivity := by
  simp only [handleMouseMove, updateCameraVectors_yaw, normalizeAngle_yaw]

theorem handleMouseMove_pitch_mem (c : Camera F) (xoffset yoffset : F) :
    -PITCH_ANGLE_MAX ≤ (handleMouseMove m c xoffset yoffset).m_pitchAngle
      ∧ (handleMouseMove m c xoffset yoffset).m_pitchAngle ≤ PITCH_ANGLE_MAX := by
  rw [handleMouseMove_pitch]
  exact clamp_mem _ _ _ (by simp only [PITCH_ANGLE_MAX]; norm_num)

theorem handleKeyPress_pitch (c : Camera F) (d : Camera_Movement) (dt : F) :
    (handleKeyPress c d dt).m_pitchAngle = c.m_pitchAngle := by
  cases d <;> rfl

theorem handleMouseScroll_pitch (c : Camera F) (y : F) :
    (handleMouseScroll c y).m_pitchAngle = c.m_pitchAngle := by
  simp only [handleMouseScroll]; split_ifs <;> rfl

theorem reset_pitchInRange (c : Camera F) : PitchInRange (reset m c) := by
  simp only [PitchInRange, reset, updateCameraVectors_pitch, PITCH, PITCH_ANGLE_MAX]
  constructor <;> norm_num

theorem step_pitchInRange (c : Camera F) (op : Op F) (h : PitchInRange c) :
    PitchInRange (step m c op) := by
  cases op with
  | keyPress d dt => simpa only [PitchInRange, step, handleKeyPress_pitch] using h
  | mouseMove x y => exact handleMouseMove_pitch_mem c x y
  | mouseScroll y => simpa only [PitchInRange, step, handleMouseScroll_pitch] using h
  | reset => exact reset_pitchInRange c

theorem step_setsPitch (c : Camera F) (op : Op F) (h : op.setsPitch = true) :
    PitchInRange (step m c op) := by
  cases op with
  | keyPress d dt => simp [Op.setsPitch] at h
  | mouseMove x y => exact handleMouseMove_pitch_mem c x y
  | mouseScroll y => simp [Op.setsPitch] at h
  | reset => exact reset_pitchInRange c

theorem run_pitchInRange (ops : List (Op F)) (c : Camera F)
    (h : PitchInRange c ∨ ∃ op ∈ ops, op.setsPitch = true) :
    PitchInRange (run m c ops) := by
  induction ops generalizing c with
  | nil =>
    rcases h with h | ⟨op, hop, _⟩
    · exact h
    · simp at hop
  | cons op rest ih =>
    show PitchInRange (run m (step m c op) rest)
    rcases h with h | ⟨op1, hop, hs⟩
    · exact ih _ (Or.inl (step_pitchInRange c op h))
    · rcases List.mem_cons.mp hop with rfl | hmem
      · exact ih _ (Or.inl (step_setsPitch c _ hs))
      · exact ih _ (Or.inr ⟨op1, hmem, hs⟩)

theorem construct_pitch (ctor : Ctor F) : (construct m ctor).m_pitchAngle = ctor.pitch := by
  cases ctor <;> rfl

theorem normalizeAngle_pitchInRange (c : Camera F) : PitchInRange (normalizeAngle c) := by
  simp only [PitchInRange, normalizeAngle_pitch]
  exact clamp_mem _ _ _ (by simp only [PITCH_ANGLE_MAX]; norm_num)

theorem Libm.Lawful.handleMouseMove_orthonormal (hm : m.Lawful) (c : Camera F) (x y : F) :
    Orthonormal (handleMouseMove m c x y) :=
  hm.update_orthonormal_of_pitchInRange _ (normalizeAngle_pitchInRange _)

theorem Libm.Lawful.reset_orthonormal (hm : m.Lawful) (c : Camera F) :
    Orthonormal (reset m c) :=
  hm.update_orthonormal_of_pitchInRange _ (by
    simp only [PitchInRange, PITCH, PITCH_ANGLE_MAX]; constructor <;> norm_num)

theorem mouseMoves_concat (c : Camera F) (moves : List (F × F)) (p : F × F) :
    mouseMoves m c (moves ++ [p]) = handleMouseMove m (mouseMoves m c moves) p.1 p.2 := by
  simp only [mouseMoves, List.foldl_append, List.foldl_cons, List.foldl_nil]

theorem Libm.Lawful.mouseMoves_orthonormal (hm : m.Lawful) (c : Camera F)
    (moves : List (F × F)) (hne : moves ≠ []) : Orthonormal (mouseMoves m c moves) := by
  rcases List.eq_nil_or_concat moves with h | ⟨l, p, rfl⟩
  · exact absurd h hne
  · rw [List.concat_eq_append, mouseMoves_concat]; exact hm.handleMouseMove_orthonormal _ _ _

theorem Libm.Lawful.construct_orthonormal (hm : m.Lawful) (ctor : Ctor F)
    (hc : m.cos (m.radians ctor.pitch) ≠ 0) : Orthonormal (construct m ctor) := by
  cases ctor <;> exact hm.update_orthonormal _ hc

theorem construct_basisEquations (ctor : Ctor F) : BasisEquations m (construct m ctor) := by
  cases ctor <;> exact ⟨rfl, rfl⟩

theorem handleKeyPress_basis (c : Camera F) (d : Camera_Movement) (dt : F) :
    (handleKeyPress c d dt).m_forward = c.m_forward
      ∧ (handleKeyPress c d dt).m_side = c.m_side
      ∧ (handleKeyPress c d dt).m_viewUp = c.m_viewUp := by
  cases d <;> exact ⟨rfl, rfl, rfl⟩

theorem handleMouseScroll_basis (c : Camera F) (y : F) :
    (handleMouseScroll c y).m_forward = c.m_forward
      ∧ (handleMouseScroll c y).m_side = c.m_side
      ∧ (handleMouseScroll c y).m_viewUp = c.m_viewUp := by
  simp only [handleMouseScroll]; split_ifs <;> exact ⟨rfl, rfl, rfl⟩

theorem handleKeyPress_moveSpeed (c : Camera F) (d : Camera_Movement) (dt : F) :
    (handleKeyPress c d dt).m_moveSpeed = c.m_moveSpeed := by
  cases d <;> rfl

theorem handleMouseScroll_moveSpeed (c : Camera F) (y : F) :
    (handleMouseScroll c y).m_moveSpeed = c.m_moveSpeed := by
  simp only [handleMouseScroll]; split_ifs <;> rfl

theorem normalizeAngle_moveSpeed (c : Camera F) :
    (normalizeAngle c).m_moveSpeed = c.m_moveSpeed := by
  simp only [normalizeAngle]; split_ifs <;> rfl

theorem step_moveSpeed (c : Camera F) (op : Op F) :
    (step m c op).m_moveSpeed = c.m_moveSpeed := by
  cases op with
  | keyPress d dt => exact handleKeyPress_moveSpeed c d dt
  | mouseMove x y =>
    simp only [step, handleMouseMove, updateCameraVectors_moveSpeed, normalizeAngle_moveSpeed]
  | mouseScroll y => exact handleMouseScroll_moveSpeed c y
  | reset => rfl

theorem run_moveSpeed (ops : List (Op F)) (c : Camera F) :
    (run m c ops).m_moveSpeed = c.m_moveSpeed := by
  induction ops generalizing c with
  | nil => rfl
  | cons op rest ih =>
    show (run m (step m c op) rest).m_moveSpeed = _
    rw [ih, step_moveSpeed]

theorem step_basisEquations (c : Camera F) (op : Op F) (h : BasisEquations m c) :
    BasisEquations m (step m c op) := by
  cases op with
  | keyPress d dt =>
    obtain ⟨e1, e2, e3⟩ := handleKeyPress_basis c d dt
    simpa only [BasisEquations, step, e1, e2, e3] using h
  | mouseMove x y => exact ⟨rfl, rfl⟩
  | mouseScroll y =>
    obtain ⟨e1, e2, e3⟩ := handleMouseScroll_basis c y
    simpa only [BasisEquations, step, e1, e2, e3] using h
  | reset => exact ⟨rfl, rfl⟩

theorem run_basisEquations (ops : List (Op F)) (c : Camera F) (h : BasisEquations m c) :
    BasisEquations m (run m c ops) := by
  induction ops generalizing c with
  | nil => exact h
  | cons op rest ih => exact ih _ (step_basisEquations c op h)

theorem Libm.Lawful.step_orthonormal (hm : m.Lawful) (c : Camera F) (op : Op F)
    (h : Orthonormal c) : Orthonormal (step m c op) := by
  cases op with
  | keyPress d dt =>
    obtain ⟨e1, e2, e3⟩ := handleKeyPress_basis c d dt
    simpa only [Orthonormal, step, e1, e2, e3] using h
  | mouseMove x y => exact hm.handleMouseMove_orthonormal c x y
  | mouseScroll y =>
    obtain ⟨e1, e2, e3⟩ := handleMouseScroll_basis c y
    simpa only [Orthonormal, step, e1, e2, e3] using h
  | reset => exact hm.reset_orthonormal c

theorem Libm.Lawful.run_orthonormal (hm : m.Lawful) (ops : List (Op F)) (c : Camera F)
    (h : Orthonormal c) : Orthonormal (run m c ops) := by
  induction ops generalizing c with
  | nil => exact h
  | cons op rest ih => exact ih _ (hm.step_orthonormal c op h)

theorem Vec3.sub_add_cancel_left (p v : Vec3 F) : Vec3.sub (Vec3.add p v) p = v := by
  ext <;> simp [Vec3.sub, Vec3.add]

theorem Vec3.sub_sub_cancel_left (p v : Vec3 F) :
    Vec3.sub (Vec3.sub p v) p = Vec3.scale v (-1) := by
  ext <;> simp [Vec3.sub, Vec3.scale]

theorem Libm.Lawful.length_scale (hm : m.Lawful) {b : Vec3 F} (hb : Vec3.dot b b = 1)
    (v : F) : m.length (Vec3.scale b v) = |v| := by
  rw [Libm.length, Vec3.dot_scale_scale, hb, mul_one, hm.sqrt_mul_self]

theorem Libm.Lawful.length_scale_neg (hm : m.Lawful) {b : Vec3 F} (hb : Vec3.dot b b = 1)
    (v : F) : m.length (Vec3.scale (Vec3.scale b v) (-1)) = |v| := by
  have e : Vec3.scale (Vec3.scale b v) (-1) = Vec3.scale b (-v) := by
    ext <;> simp [Vec3.scale]
  rw [e, hm.length_scale hb, abs_neg]

/-- In a state with unit basis vectors a key press moves the camera by
`|m_moveSpeed * deltaTime|`. -/
theorem Libm.Lawful.keyPressJump_eq (hm : m.Lawful) (c : Camera F) (h : Orthonormal c)
    (d : Camera_Movement) (dt : F) : keyPressJump m c d dt = |c.m_moveSpeed * dt| := by
  obtain ⟨hf, hs, hu, _⟩ := h
  cases d
  · simp only [keyPressJump, Libm.distance, handleKeyPress, Vec3.sub_add_cancel_left]
    exact hm.length_scale hu _
  · simp only [keyPressJump, Libm.distance, handleKeyPress, Vec3.sub_sub_cancel_left]
    exact hm.length_scale_neg hu _
  · simp only [keyPressJump, Libm.distance, handleKeyPress, Vec3.sub_add_cancel_left]
    exact hm.length_scale hf _
  · simp only [keyPressJump, Libm.distance, handleKeyPress, Vec3.sub_sub_cancel_left]
    exact hm.length_scale_neg hf _
  · simp only [keyPressJump, Libm.distance, handleKeyPress, Vec3.sub_sub_cancel_left]
    exact hm.length_scale_neg hs _
  · simp only [keyPressJump, Libm.distance, handleKeyPress, Vec3.sub_add_cancel_left]
    exact hm.length_scale hs _

theorem Libm.Lawful.cos_radians_PITCH_ne_zero (hm : m.Lawful) :
    m.cos (m.radians (PITCH : F)) ≠ 0 := by
  simp only [Libm.radians, PITCH, zero_mul, hm.cos_zero]; exact one_ne_zero

/-- From a default-orientation constructor, every reachable state moves by
`5 * |deltaTime|` on a key press. -/
theorem Libm.Lawful.keyPressJump_run (hm : m.Lawful) (ctor : Ctor F)
    (hc : m.cos (m.radians ctor.pitch) ≠ 0) (ops : List (Op F))
    (d : Camera_Movement) (dt : F) :
    keyPressJump m (run m (construct m ctor) ops) d dt = 5 * |dt| := by
  have ho := hm.run_orthonormal ops _ (hm.construct_orthonormal ctor hc)
  have hsp : (construct m ctor).m_moveSpeed = 5 := by cases ctor <;> rfl
  rw [hm.keyPressJump_eq _ ho, run_moveSpeed, hsp, abs_mul]
  simp

end OpLemmas

/-! ## Frames, zoom and the default state -/

section FrameLemmas

variable {F : Type} [LinearOrderedField F] {m : Libm F}

/-- A key press writes the position and nothing else. -/
theorem handleKeyPress_frame (c : Camera F) (d : Camera_Movement) (dt : F) :
    handleKeyPress c d dt = { c with m_position := (handleKeyPress c d dt).m_position } := by
  cases d <;> rfl

/-- A scroll writes the zoom and nothing else. -/
theorem handleMouseScroll_frame (c : Camera F) (y : F) :
    handleMouseScroll c y = { c with m_mouseZoom := (handleMouseScroll c y).m_mouseZoom } := by
  simp only [handleMouseScroll]; split_ifs <;> rfl

theorem handleMouseScroll_zoom (c : Camera F) (y : F) :
    (handleMouseScroll c y).m_mouseZoom
      = clamp (c.m_mouseZoom - ZOOM_SENSITIVTY * y) MOUSE_ZOOM_MIN MOUSE_ZOOM_MAX := by
  have hlt : (MOUSE_ZOOM_MIN : F) < MOUSE_ZOOM_MAX := by
    simp only [MOUSE_ZOOM_MIN, MOUSE_ZOOM_MAX]; norm_num
  simp only [handleMouseScroll, clamp]
  by_cases h1 : c.m_mouseZoom - ZOOM_SENSITIVTY * y < MOUSE_ZOOM_MIN
  · rw [if_pos h1, min_eq_right (h1.le.trans hlt.le), max_eq_left h1.le]
  · rw [if_neg h1]
    by_cases h2 : c.m_mouseZoom - ZOOM_SENSITIVTY * y > MOUSE_ZOOM_MAX
    · rw [if_pos h2, min_eq_left h2.le, max_eq_right hlt.le]
    · rw [if_neg h2, min_eq_right (not_lt.mp h2), max_eq_right (not_lt.mp h1)]

theorem handleMouseScroll_zoomInRange (c : Camera F) (y : F) :
    ZoomInRange (handleMouseScroll c y) := by
  simp only [ZoomInRange, handleMouseScroll_zoom]
  exact clamp_mem _ _ _ (by simp only [MOUSE_ZOOM_MIN, MOUSE_ZOOM_MAX]; norm_num)

theorem zoomInRange_half : (MOUSE_ZOOM_MIN : F) ≤ MOUSE_ZOOM_MAX / 2
    ∧ (MOUSE_ZOOM_MAX : F) / 2 ≤ MOUSE_ZOOM_MAX := by
  simp only [MOUSE_ZOOM_MIN, MOUSE_ZOOM_MAX]; constructor <;> norm_num

theorem normalizeAngle_mouseZoom (c : Camera F) :
    (normalizeAngle c).m_mouseZoom = c.m_mouseZoom := by
  simp only [normalizeAngle]; split_ifs <;> rfl

theorem step_zoomInRange (c : Camera F) (op : Op F) (h : ZoomInRange c) :
    ZoomInRange (step m c op) := by
  cases op with
  | keyPress d dt =>
    have e : (handleKeyPress c d dt).m_mouseZoom = c.m_mouseZoom := by cases d <;> rfl
    simpa only [ZoomInRange, step, e] using h
  | mouseMove x y =>
    simpa only [ZoomInRange, step, handleMouseMove, updateCameraVectors_mouseZoom,
      normalizeAngle_mouseZoom] using h
  | mouseScroll y => exact handleMouseScroll_zoomInRange c y
  | reset => exact zoomInRange_half

theorem run_zoomInRange (ops : List (Op F)) (c : Camera F) (h : ZoomInRange c) :
    ZoomInRange (run m c ops) := by
  induction ops generalizing c with
  | nil => exact h
  | cons op rest ih => exact ih _ (step_zoomInRange c op h)

theorem construct_zoomInRange (ctor : Ctor F) : ZoomInRange (construct m ctor) := by
  cases ctor <;> exact zoomInRange_half

theorem normalizeAngle_config (c : Camera F) :
    (normalizeAngle c).m_moveSpeed = c.m_moveSpeed
      ∧ (normalizeAngle c).m_mouseSensitivity = c.m_mouseSensitivity
      ∧ (normalizeAngle c).m_zoomSensitivity = c.m_zoomSensitivity := by
  simp only [normalizeAngle]; split_ifs <;> exact ⟨rfl, rfl, rfl⟩

/-- No public mutator writes the three configuration scalars. -/
theorem step_config (c : Camera F) (op : Op F) :
    (step m c op).m_moveSpeed = c.m_moveSpeed
      ∧ (step m c op).m_mouseSensitivity = c.m_mouseSensitivity
      ∧ (step m c op).m_zoomSensitivity = c.m_zoomSensitivity := by
  cases op with
  | keyPress d dt => cases d <;> exact ⟨rfl, rfl, rfl⟩
  | mouseMove x y => exact normalizeAngle_config _
  | mouseScroll y =>
    simp only [step, handleMouseScroll]; split_ifs <;> exact ⟨rfl, rfl, rfl⟩
  | reset => exact ⟨rfl, rfl, rfl⟩

theorem run_config (ops : List (Op F)) (c : Camera F) :
    (run m c ops).m_moveSpeed = c.m_moveSpeed
      ∧ (run m c ops).m_mouseSensitivity = c.m_mouseSensitivity
      ∧ (run m c ops).m_zoomSensitivity = c.m_zoomSensitivity := by
  induction ops generalizing c with
  | nil => exact ⟨rfl, rfl, rfl⟩
  | cons op rest ih =>
    obtain ⟨a1, a2, a3⟩ := ih (step m c op)
    obtain ⟨b1, b2, b3⟩ := step_config (m := m) c op
    exact ⟨a1.trans b1, a2.trans b2, a3.trans b3⟩

theorem construct_configFixed (ctor : Ctor F) : ConfigFixed (construct m ctor) := by
  cases ctor <;> exact ⟨rfl, rfl, rfl⟩

theorem run_configFixed (ctor : Ctor F) (ops : List (Op F)) :
    ConfigFixed (run m (construct m ctor) ops) := by
  obtain ⟨a1, a2, a3⟩ := run_config (m := m) ops (construct m ctor)
  obtain ⟨b1, b2, b3⟩ := construct_configFixed (m := m) ctor
  exact ⟨a1.trans b1, a2.trans b2, a3.trans b3⟩

/-- The value of `reset` depends on the old state only through the three
configuration scalars. -/
theorem reset_congr (c d : Camera F) (h1 : c.m_moveSpeed = d.m_moveSpeed)
    (h2 : c.m_mouseSensitivity = d.m_mouseSensitivity)
    (h3 : c.m_zoomSensitivity = d.m_zoomSensitivity) : reset m c = reset m d :=
  updateCameraVectors_congr _ _ rfl rfl rfl h1 h2 h3 rfl

theorem reset_reset (c : Camera F) : reset m (reset m c) = reset m c :=
  reset_congr _ _ rfl rfl rfl

/-- At yaw 0 and pitch 0 the derived basis is forward `(0, 0, -1)`, side
`(1, 0, 0)`, up `(0, 1, 0)`. -/
theorem Libm.Lawful.update_default (hm : m.Lawful) (c : Camera F)
    (hy : c.m_yawAngle = 0) (hp : c.m_pitchAngle = 0) :
    updateCameraVectors m c
      = { c with m_forward := ⟨0, 0, -1⟩, m_side := ⟨1, 0, 0⟩, m_viewUp := ⟨0, 1, 0⟩ } := by
  have hf : (updateCameraVectors m c).m_forward = ⟨0, 0, -1⟩ := by
    rw [hm.update_forward, hy, hp]
    simp only [newForward, Libm.radians, zero_mul, hm.sin_zero, hm.cos_zero]
    ext <;> simp
  have hs : (updateCameraVectors m c).m_side = ⟨1, 0, 0⟩ := by
    rw [updateCameraVectors_side, hf]
    have e : Vec3.cross (⟨0, 0, -1⟩ : Vec3 F) VIEWUP = ⟨1, 0, 0⟩ := by
      ext <;> simp [Vec3.cross, VIEWUP]
    rw [e]
    exact hm.normalize_of_unit (by simp [Vec3.dot])
  have hu : (updateCameraVectors m c).m_viewUp = ⟨0, 1, 0⟩ := by
    have e0 : (updateCameraVectors m c).m_viewUp
        = m.normalize (Vec3.cross (updateCameraVectors m c).m_side
            (updateCameraVectors m c).m_forward) := rfl
    rw [e0, hs, hf]
    have e : Vec3.cross (⟨1, 0, 0⟩ : Vec3 F) ⟨0, 0, -1⟩ = ⟨0, 1, 0⟩ := by
      ext <;> simp [Vec3.cross]
    rw [e]
    exact hm.normalize_of_unit (by simp [Vec3.dot])
  ext1
  · rfl
  · exact hu
  · exact hf
  · exact hs
  all_goals rfl

/-- The fields of the default-constructed camera. -/
theorem Libm.Lawful.Camera0_eq (hm : m.Lawful) :
    Camera0 m
      = { m_position := ⟨0, 3 / 2, 10⟩, m_viewUp := ⟨0, 1, 0⟩, m_forward := ⟨0, 0, -1⟩,
          m_side := ⟨1, 0, 0⟩, m_yawAngle := 0, m_pitchAngle := 0, m_moveSpeed := 5,
          m_mouseSensitivity := 1 / 10, m_zoomSensitivity := 2, m_mouseZoom := 40 } := by
  rw [Camera0, hm.update_default _ rfl rfl]
  simp only [POS, YAW, PITCH, MOVE_SPEED, MOUSE_SENSITIVTY, ZOOM_SENSITIVTY, MOUSE_ZOOM_MAX]
  congr 1
  norm_num

theorem Camera1_eq (pos : Vec3 F) : Camera1 m pos = { Camera0 m with m_position := pos } := rfl

/-- In a state with the construction-time configuration, `reset` gives the
default-constructed camera. -/
theorem reset_eq_Camera0 (c : Camera F) (h : ConfigFixed c) : reset m c = Camera0 m := by
  obtain ⟨h1, h2, h3⟩ := h
  exact updateCameraVectors_congr _ _ rfl rfl rfl h1 h2 h3 rfl

theorem normalizeAngle_forward (c : Camera F) :
    (normalizeAngle c).m_forward = c.m_forward := by
  simp only [normalizeAngle]; split_ifs <;> rfl

theorem Vec3.cross_cross_self (f s : Vec3 F) (hff : Vec3.dot f f = 1)
    (hfs : Vec3.dot f s = 0) : Vec3.cross f (Vec3.cross s f) = s := by
  simp only [Vec3.dot] at hff hfs
  ext
  · simp only [Vec3.cross]; linear_combination s.x * hff - f.x * hfs
  · simp only [Vec3.cross]; linear_combination s.y * hff - f.y * hfs
  · simp only [Vec3.cross]; linear_combination s.z * hff - f.z * hfs

/-- In a state with an orthonormal basis derived as in `updateCameraVectors`,
the look-at matrix has rows side, up and minus forward. -/
theorem Libm.Lawful.getViewMatrix_eq (hm : m.Lawful) (c : Camera F) (ho : Orthonormal c)
    (hb : BasisEquations m c) :
    getViewMatrix m c
      = { col0 := ⟨c.m_side.x, c.m_viewUp.x, -c.m_forward.x, 0⟩,
          col1 := ⟨c.m_side.y, c.m_viewUp.y, -c.m_forward.y, 0⟩,
          col2 := ⟨c.m_side.z, c.m_viewUp.z, -c.m_forward.z, 0⟩,
          col3 := ⟨-Vec3.dot c.m_side c.m_position, -Vec3.dot c.m_viewUp c.m_position,
                   Vec3.dot c.m_forward c.m_position, 1⟩ } := by
  obtain ⟨hff, hss, _, hfs, _, _⟩ := ho
  have hsf : Vec3.dot c.m_side c.m_forward = 0 := by rw [Vec3.dot_comm]; exact hfs
  have hcross : Vec3.dot (Vec3.cross c.m_side c.m_forward) (Vec3.cross c.m_side c.m_forward)
      = 1 := by
    rw [Vec3.dot_cross_self, hss, hff, hsf]; ring
  have hup : c.m_viewUp = Vec3.cross c.m_side c.m_forward := by
    rw [hb.2, hm.normalize_of_unit hcross]
  have e1 : m.normalize (Vec3.sub (Vec3.add c.m_position c.m_forward) c.m_position)
      = c.m_forward := by
    rw [Vec3.sub_add_cancel_left, hm.normalize_of_unit hff]
  have e2 : m.normalize (Vec3.cross c.m_forward c.m_viewUp) = c.m_side := by
    rw [hup, Vec3.cross_cross_self _ _ hff hfs, hm.normalize_of_unit hss]
  simp only [getViewMatrix, lookAt, e1, e2, ← hup]

theorem Libm.Lawful.viewMapsBasis (hm : m.Lawful) (c : Camera F) (ho : Orthonormal c)
    (hb : BasisEquations m c) : ViewMapsBasis m c := by
  have hM := hm.getViewMatrix_eq c ho hb
  obtain ⟨hff, hss, huu, hfs, hfu, hsu⟩ := ho
  simp only [Vec3.dot] at hff hss huu hfs hfu hsu
  simp only [ViewMapsBasis, hM, Mat4.transformPoint, Mat4.mulVec, Vec3.add, Vec3.dot]
  refine ⟨?_, ?_, ?_, ?_⟩
  · ext <;> simp <;> ring
  · ext
    · simp; linear_combination hfs
    · simp; linear_combination hfu
    · simp; linear_combination -hff
    · simp
  · ext
    · simp; linear_combination hsu
    · simp; linear_combination huu
    · simp; linear_combination -hfu
    · simp
  · ext
    · simp; linear_combination hss
    · simp; linear_combination hsu
    · simp; linear_combination -hfs
    · simp

end FrameLemmas

/-! ## Non-degenerate normalization and the closed form of the basis -/

section BasisLemmas

variable {F : Type} [LinearOrderedField F] {m : Libm F}

theorem Vec3.ne_zero_of_dot_ne_zero (v : Vec3 F) (h : Vec3.dot v v ≠ 0) : v ≠ ⟨0, 0, 0⟩ := by
  intro e
  apply h
  rw [e]
  simp [Vec3.dot]

theorem Libm.Lawful.dot_cross_forward_VIEWUP (hm : m.Lawful) (c : Camera F) :
    Vec3.dot (Vec3.cross (updateCameraVectors m c).m_forward VIEWUP)
        (Vec3.cross (updateCameraVectors m c).m_forward VIEWUP)
      = m.cos (m.radians c.m_pitchAngle) * m.cos (m.radians c.m_pitchAngle) := by
  have hy := hm.sin_sq_add_cos_sq (m.radians c.m_yawAngle)
  rw [Vec3.dot_cross_VIEWUP, hm.update_forward]
  simp only [newForward]
  linear_combination
    (m.cos (m.radians c.m_pitchAngle) * m.cos (m.radians c.m_pitchAngle)) * hy

theorem Libm.Lawful.dot_cross_side_forward (hm : m.Lawful) (c : Camera F)
    (hc : m.cos (m.radians c.m_pitchAngle) ≠ 0) :
    Vec3.dot (Vec3.cross (updateCameraVectors m c).m_side (updateCameraVectors m c).m_forward)
        (Vec3.cross (updateCameraVectors m c).m_side (updateCameraVectors m c).m_forward)
      = 1 := by
  obtain ⟨hff, hss, _, hfs, _, _⟩ := hm.update_orthonormal c hc
  have hsf : Vec3.dot (updateCameraVectors m c).m_side (updateCameraVectors m c).m_forward
      = 0 := by
    rw [Vec3.dot_comm]; exact hfs
  rw [Vec3.dot_cross_self, hss, hff, hsf]; ring

theorem Libm.Lawful.normalizationDefined (hm : m.Lawful) (c : Camera F)
    (hc : m.cos (m.radians c.m_pitchAngle) ≠ 0) : NormalizationDefined m c := by
  have h1 : Vec3.dot (newForward m c.m_yawAngle c.m_pitchAngle)
      (newForward m c.m_yawAngle c.m_pitchAngle) ≠ 0 := by
    rw [hm.dot_newForward]; exact one_ne_zero
  have h2 : Vec3.dot (Vec3.cross (updateCameraVectors m c).m_forward VIEWUP)
      (Vec3.cross (updateCameraVectors m c).m_forward VIEWUP) ≠ 0 := by
    rw [hm.dot_cross_forward_VIEWUP]; exact mul_ne_zero hc hc
  have h3 : Vec3.dot
      (Vec3.cross (updateCameraVectors m c).m_side (updateCameraVectors m c).m_forward)
      (Vec3.cross (updateCameraVectors m c).m_side (updateCameraVectors m c).m_forward)
      ≠ 0 := by
    rw [hm.dot_cross_side_forward c hc]; exact one_ne_zero
  exact ⟨Vec3.ne_zero_of_dot_ne_zero _ h1, Vec3.ne_zero_of_dot_ne_zero _ h2,
    Vec3.ne_zero_of_dot_ne_zero _ h3,
    hm.sqrt_ne_zero h1 (Vec3.dot_self_nonneg _), hm.sqrt_ne_zero h2 (Vec3.dot_self_nonneg _),
    hm.sqrt_ne_zero h3 (Vec3.dot_self_nonneg _)⟩

theorem Libm.Lawful.cos_radians_pos_of_lt (hm : m.Lawful) {d : F}
    (h1 : -90 < d) (h2 : d < 90) : 0 < m.cos (m.radians d) := by
  have hp := hm.pi_pos
  apply hm.cos_pos
  · simp only [Libm.radians]; nlinarith
  · simp only [Libm.radians]; nlinarith

/-- With a positive cosine of the pitch the derived basis has the closed form. -/
theorem Libm.Lawful.update_closedForm (hm : m.Lawful) (c : Camera F)
    (hc : 0 < m.cos (m.radians c.m_pitchAngle)) :
    ClosedFormBasis m (updateCameraVectors m c) := by
  have hy := hm.sin_sq_add_cos_sq (m.radians c.m_yawAngle)
  have hp := hm.sin_sq_add_cos_sq (m.radians c.m_pitchAngle)
  have hne : m.cos (m.radians c.m_pitchAngle) ≠ 0 := ne_of_gt hc
  have hf := hm.update_forward c
  have hside : (updateCameraVectors m c).m_side
      = ⟨m.cos (m.radians c.m_yawAngle), 0, m.sin (m.radians c.m_yawAngle)⟩ := by
    rw [updateCameraVectors_side, Libm.normalize, hm.dot_cross_forward_VIEWUP,
      hm.sqrt_mul_self, abs_of_pos hc, hf]
    simp only [Vec3.cross, Vec3.scale, VIEWUP, newForward]
    ext
    · simp only []; field_simp
    · simp only []; ring
    · simp only []; field_simp
  have hup : (updateCameraVectors m c).m_viewUp
      = ⟨-m.sin (m.radians c.m_yawAngle) * m.sin (m.radians c.m_pitchAngle),
         m.cos (m.radians c.m_pitchAngle),
         m.cos (m.radians c.m_yawAngle) * m.sin (m.radians c.m_pitchAngle)⟩ := by
    have e0 : (updateCameraVectors m c).m_viewUp
        = m.normalize (Vec3.cross (updateCameraVectors m c).m_side
            (updateCameraVectors m c).m_forward) := rfl
    have e1 : Vec3.cross (updateCameraVectors m c).m_side (updateCameraVectors m c).m_forward
        = ⟨-m.sin (m.radians c.m_yawAngle) * m.sin (m.radians c.m_pitchAngle),
           m.cos (m.radians c.m_pitchAngle),
           m.cos (m.radians c.m_yawAngle) * m.sin (m.radians c.m_pitchAngle)⟩ := by
      rw [hside, hf]
      simp only [Vec3.cross, newForward]
      ext
      · simp only []; ring
      · simp only []; linear_combination (m.cos (m.radians c.m_pitchAngle)) * hy
      · simp only []; ring
    have e2 := hm.dot_cross_side_forward c hne
    rw [e0, hm.normalize_of_unit e2, e1]
  refine ⟨hside, hup, ?_, ?_⟩
  · rw [hside]
  · rw [hup]; exact hc

end BasisLemmas

/-! ## The application callbacks and the second implementation -/

section AppLemmas

variable {F : Type} [LinearOrderedField F] {m : Libm F}

theorem withModel_updateCameraVectors_eq (c : Camera F) :
    WithModel.updateCameraVectors m c = updateCameraVectors m c := rfl

theorem withModel_step_eq (c : Camera F) (op : Op F) (h : op.isReset = false) :
    WithModel.step m c op = step m c op := by
  cases op with
  | keyPress d dt => cases d <;> rfl
  | mouseMove x y => rfl
  | mouseScroll y => rfl
  | reset => simp [Op.isReset] at h

theorem withModel_run_eq (ops : List (Op F)) (c : Camera F)
    (h : ∀ op ∈ ops, op.isReset = false) : WithModel.run m c ops = run m c ops := by
  induction ops generalizing c with
  | nil => rfl
  | cons op rest ih =>
    have e : WithModel.step m c op = step m c op :=
      withModel_step_eq c op (h op (List.mem_cons_self _ _))
    have e1 : WithModel.run m (WithModel.step m c op) rest = run m (step m c op) rest :=
      (congrArg (fun s => WithModel.run m s rest) e).trans
        (ih (step m c op) (fun o ho => h o (List.mem_cons_of_mem _ ho)))
    exact e1

end AppLemmas

section KeyLemmas

variable {F : Type} [LinearOrderedField F] {m : Libm F}

theorem Vec3.add_sub_scale (p b : Vec3 F) (v : F) :
    Vec3.sub (Vec3.add p (Vec3.scale b v)) (Vec3.scale b v) = p := by
  ext <;> simp [Vec3.sub, Vec3.add, Vec3.scale]

theorem Vec3.sub_add_scale (p b : Vec3 F) (v : F) :
    Vec3.add (Vec3.sub p (Vec3.scale b v)) (Vec3.scale b v) = p := by
  ext <;> simp [Vec3.sub, Vec3.add, Vec3.scale]

theorem Vec3.add_scale_zero (p b : Vec3 F) (s : F) :
    Vec3.add p (Vec3.scale b (s * 0)) = p := by
  ext <;> simp [Vec3.add, Vec3.scale]

theorem Vec3.sub_scale_zero (p b : Vec3 F) (s : F) :
    Vec3.sub p (Vec3.scale b (s * 0)) = p := by
  ext <;> simp [Vec3.sub, Vec3.scale]

theorem handleKeyPress_zero (c : Camera F) (d : Camera_Movement) :
    handleKeyPress c d 0 = c := by
  cases d <;> simp only [handleKeyPress, Vec3.add_scale_zero, Vec3.sub_scale_zero]

/-- The press-only part of `key_callback` does nothing for the movement keys. -/
theorem keyPressActions_movement (a : App F) (key action : Int)
    (hk : key = GLFW_KEY_W ∨ key = GLFW_KEY_A ∨ key = GLFW_KEY_S ∨ key = GLFW_KEY_D) :
    keyPressActions m a key action = a := by
  simp only [keyPressActions]
  rcases hk with rfl | rfl | rfl | rfl <;>
    simp [GLFW_KEY_W, GLFW_KEY_A, GLFW_KEY_S, GLFW_KEY_D, GLFW_KEY_ESCAPE, GLFW_KEY_N,
      GLFW_KEY_P, GLFW_KEY_SPACE, GLFW_KEY_R]

/-- The press-only part of `key_callback` does nothing unless the action is
`GLFW_PRESS`. -/
theorem keyPressActions_not_press (a : App F) (key action : Int) (h : action ≠ GLFW_PRESS) :
    keyPressActions m a key action = a := by
  simp only [keyPressActions, if_neg h]

/-- For a movement key the result of `key_callback` is the movement call on
the unchanged globals, whatever the action. -/
theorem key_callback_movement (a : App F) (key scancode action mods : Int)
    (hk : key = GLFW_KEY_W ∨ key = GLFW_KEY_A ∨ key = GLFW_KEY_S ∨ key = GLFW_KEY_D)
    (d : Camera_Movement) (hd : movementCall key mods = some d) :
    key_callback m a key scancode action mods
      = { a with camera := handleKeyPress a.camera d a.deltaTime } := by
  simp only [key_callback, hd, keyPressActions_movement a key action hk]

end KeyLemmas

/-! ## Evaluating binary rounding -/

section FloatLemmas

/-- With exact arithmetic `mouseMoveAngles` gives the yaw and pitch of
`handleMouseMove`. -/
theorem mouseMoveAngles_exact {F : Type} [LinearOrderedField F] (m : Libm F) (c : Camera F)
    (xoffset yoffset : F) :
    mouseMoveAngles id c.m_mouseSensitivity c.m_yawAngle c.m_pitchAngle xoffset yoffset
      = ((handleMouseMove m c xoffset yoffset).m_yawAngle,
         (handleMouseMove m c xoffset yoffset).m_pitchAngle) := by
  simp only [mouseMoveAngles, handleMouseMove, normalizeAngle, updateCameraVectors_yaw,
    updateCameraVectors_pitch, id]
  split_ifs <;> rfl

/-- With exact arithmetic `cursorOffsets` and `cursorCacheAfter` give the call
and the globals of `mouse_move_callback`. -/
theorem cursor_exact {F : Type} [LinearOrderedField F] (m : Libm F) (a : App F)
    (xpos ypos : F) :
    (mouse_move_callback m a xpos ypos).camera
        = handleMouseMove m a.camera
            (cursorOffsets id id ⟨a.firstMouseMove, a.lastX, a.lastY⟩ xpos ypos).1
            (cursorOffsets id id ⟨a.firstMouseMove, a.lastX, a.lastY⟩ xpos ypos).2
      ∧ (mouse_move_callback m a xpos ypos).firstMouseMove
        = (cursorCacheAfter id ⟨a.firstMouseMove, a.lastX, a.lastY⟩ xpos ypos).firstMouseMove
      ∧ (mouse_move_callback m a xpos ypos).lastX
        = (cursorCacheAfter id ⟨a.firstMouseMove, a.lastX, a.lastY⟩ xpos ypos).lastX
      ∧ (mouse_move_callback m a xpos ypos).lastY
        = (cursorCacheAfter id ⟨a.firstMouseMove, a.lastX, a.lastY⟩ xpos ypos).lastY := by
  simp only [mouse_move_callback, cursorOffsets, cursorCacheAfter, id]
  cases h : a.firstMouseMove <;> simp [h]

end FloatLemmas

/-! ## Claims -/

section Claims

variable {F : Type} [LinearOrderedField F]

/-- C1: evaluation of the code at the input of the claim. Starting from yaw 350
(inside `[0, 360)`), `handleMouseMove(200, 0)` at look sensitivity 0.1 stores
yaw 370, which is outside `[0, 360)`; the claim says 10. -/
theorem C1_yaw_not_wrapped :
    (Camera4 realLibm POS VIEWUP 350 0).m_yawAngle = 350
      ∧ (Camera4 realLibm POS VIEWUP 350 0).m_mouseSensitivity = 1 / 10
      ∧ (handleMouseMove realLibm (Camera4 realLibm POS VIEWUP 350 0) 200 0).m_yawAngle = 370
      ∧ ¬ (handleMouseMove realLibm (Camera4 realLibm POS VIEWUP 350 0) 200 0).m_yawAngle
            < 360 := by
  have h : (handleMouseMove realLibm (Camera4 realLibm POS VIEWUP 350 0) 200 0).m_yawAngle
      = 370 := by
    rw [handleMouseMove_yaw]
    simp only [Camera4, updateCameraVectors_yaw, updateCameraVectors, MOUSE_SENSITIVTY]
    norm_num
  refine ⟨rfl, rfl, h, ?_⟩
  rw [h]; norm_num

/-- C2: after `handleMouseMove(xoffset, yoffset)` the pitch is
`clamp(oldPitch + yoffset * lookSensitivity, -89, 89)`, hence within `[-89, 89]`,
from any state; from pitch 80 at sensitivity 0.1, `yoffset = 200` gives exactly 89. -/
theorem C2_pitch_clamped (m : Libm F) :
    (∀ (c : Camera F) (xoffset yoffset : F),
        (handleMouseMove m c xoffset yoffset).m_pitchAngle
            = clamp (c.m_pitchAngle + yoffset * c.m_mouseSensitivity) (-89) 89
          ∧ -89 ≤ (handleMouseMove m c xoffset yoffset).m_pitchAngle
          ∧ (handleMouseMove m c xoffset yoffset).m_pitchAngle ≤ 89)
      ∧ (∀ (pos up : Vec3 F) (yaw xoffset : F),
          (Camera4 m pos up yaw 80).m_pitchAngle = 80
            ∧ (Camera4 m pos up yaw 80).m_mouseSensitivity = 1 / 10
            ∧ (handleMouseMove m (Camera4 m pos up yaw 80) xoffset 200).m_pitchAngle = 89) := by
  refine ⟨fun c x y => ⟨?_, ?_, ?_⟩, fun pos up yaw x => ⟨rfl, rfl, ?_⟩⟩
  · simpa only [PITCH_ANGLE_MAX] using handleMouseMove_pitch (m := m) c x y
  · simpa only [PITCH_ANGLE_MAX] using (handleMouseMove_pitch_mem (m := m) c x y).1
  · simpa only [PITCH_ANGLE_MAX] using (handleMouseMove_pitch_mem (m := m) c x y).2
  · rw [handleMouseMove_pitch]
    simp only [Camera4, updateCameraVectors_pitch, updateCameraVectors, MOUSE_SENSITIVTY,
      PITCH_ANGLE_MAX, clamp]
    norm_num

/-- C3 (as stated) fails: the four-argument constructor stores the pitch
argument unchanged and `handleKeyPress` does not touch it, so after
`Camera(POS, VIEWUP, 0, 100)` and one `handleKeyPress(UP, 1)` the pitch is 100. -/
theorem C3_counterexample :
    ¬ ((run realLibm (construct realLibm (Ctor.full POS VIEWUP 0 100))
          [Op.keyPress Camera_Movement.UP 1]).m_pitchAngle ≤ 89) := by
  have h : (run realLibm (construct realLibm (Ctor.full POS VIEWUP 0 100))
      [Op.keyPress Camera_Movement.UP 1]).m_pitchAngle = 100 := rfl
  rw [h]; norm_num

/-- C3 (amended): for a camera built by any constructor and any sequence of
public mutators (non-empty or not), the pitch after the last call lies in
`[-89, 89]` provided the constructor's pitch argument does (always so for the
two defaulting constructors) or the sequence contains a `handleMouseMove` or
`reset` call. -/
theorem C3_pitch_invariant (m : Libm F) (ctor : Ctor F) (ops : List (Op F))
    (h : (-89 ≤ ctor.pitch ∧ ctor.pitch ≤ 89) ∨ ∃ op ∈ ops, op.setsPitch = true) :
    -89 ≤ (run m (construct m ctor) ops).m_pitchAngle
      ∧ (run m (construct m ctor) ops).m_pitchAngle ≤ 89 := by
  have key := run_pitchInRange (m := m) ops (construct m ctor)
    (by simpa only [PitchInRange, construct_pitch, PITCH_ANGLE_MAX] using h)
  simpa only [PitchInRange, PITCH_ANGLE_MAX] using key

/-- Witness for C3: the default camera followed by a key press and a scroll. -/
theorem C3_pitch_invariant_witness :
    (-89 ≤ (Ctor.noArgs : Ctor ℝ).pitch ∧ (Ctor.noArgs : Ctor ℝ).pitch ≤ 89)
      ∧ -89 ≤ (run realLibm (construct realLibm Ctor.noArgs)
          [Op.keyPress Camera_Movement.UP 1, Op.mouseScroll 3]).m_pitchAngle
      ∧ (run realLibm (construct realLibm Ctor.noArgs)
          [Op.keyPress Camera_Movement.UP 1, Op.mouseScroll 3]).m_pitchAngle ≤ 89 :=
  have h : -89 ≤ (Ctor.noArgs : Ctor ℝ).pitch ∧ (Ctor.noArgs : Ctor ℝ).pitch ≤ 89 := by
    simp only [Ctor.pitch, PITCH]; constructor <;> norm_num
  ⟨h, C3_pitch_invariant realLibm Ctor.noArgs _ (Or.inl h)⟩

/-- C4: over exact real arithmetic, after every non-empty sequence of
`handleMouseMove` calls from any starting state, forward, side and up have
length 1 and forward is orthogonal to side and to up. -/
theorem C4_mouseMove_orthonormal (c : Camera ℝ) (moves : List (ℝ × ℝ)) (hne : moves ≠ []) :
    realLibm.length (mouseMoves realLibm c moves).m_forward = 1
      ∧ realLibm.length (mouseMoves realLibm c moves).m_side = 1
      ∧ realLibm.length (mouseMoves realLibm c moves).m_viewUp = 1
      ∧ Vec3.dot (mouseMoves realLibm c moves).m_forward
          (mouseMoves realLibm c moves).m_side = 0
      ∧ Vec3.dot (mouseMoves realLibm c moves).m_forward
          (mouseMoves realLibm c moves).m_viewUp = 0 := by
  obtain ⟨hf, hs, hu, hfs, hfu, _⟩ := realLibm_lawful.mouseMoves_orthonormal c moves hne
  exact ⟨realLibm_lawful.length_of_unit hf, realLibm_lawful.length_of_unit hs,
    realLibm_lawful.length_of_unit hu, hfs, hfu⟩

/-- Witness for C4: two mouse moves applied to the default camera. -/
theorem C4_mouseMove_orthonormal_witness :
    ([((200 : ℝ), (200 : ℝ)), (-30, 1000)] ≠ [])
      ∧ realLibm.length
          (mouseMoves realLibm (Camera0 realLibm) [(200, 200), (-30, 1000)]).m_forward = 1
      ∧ realLibm.length
          (mouseMoves realLibm (Camera0 realLibm) [(200, 200), (-30, 1000)]).m_side = 1
      ∧ realLibm.length
          (mouseMoves realLibm (Camera0 realLibm) [(200, 200), (-30, 1000)]).m_viewUp = 1
      ∧ Vec3.dot (mouseMoves realLibm (Camera0 realLibm) [(200, 200), (-30, 1000)]).m_forward
          (mouseMoves realLibm (Camera0 realLibm) [(200, 200), (-30, 1000)]).m_side = 0
      ∧ Vec3.dot (mouseMoves realLibm (Camera0 realLibm) [(200, 200), (-30, 1000)]).m_forward
          (mouseMoves realLibm (Camera0 realLibm) [(200, 200), (-30, 1000)]).m_viewUp = 0 :=
  ⟨by simp, C4_mouseMove_orthonormal (Camera0 realLibm) [(200, 200), (-30, 1000)] (by simp)⟩

/-- Exact arithmetic only: with pitch 90 the forward vector is `(0, 1, 0)`, its
cross product with the world up is the zero vector, and the stored side vector
(the zero vector times the inverse square root of 0, whatever value that
division by zero is given) does not have length 1.  The program does not reach
this case: in binary32 the cosine of `radians(90)` is not zero. -/
theorem exact_pitch90_side_not_unit :
    ¬ (realLibm.length (construct realLibm (Ctor.full POS VIEWUP 0 90)).m_side = 1) := by
  have hcos : realLibm.cos (realLibm.radians 90) = 0 := by
    have e : realLibm.radians 90 = Real.pi / 2 := by
      simp only [Libm.radians, realLibm]; ring
    rw [e]; exact Real.cos_pi_div_two
  have hx : (newForward realLibm 0 90).x = 0 := by simp only [newForward, hcos, mul_zero]
  have hz : (newForward realLibm 0 90).z = 0 := by simp only [newForward, hcos, mul_zero]
  have hside : (construct realLibm (Ctor.full POS VIEWUP 0 90)).m_side = ⟨0, 0, 0⟩ := by
    have hf := realLibm_lawful.update_forward
      (Camera.mk POS VIEWUP ⟨0, 0, 0⟩ ⟨0, 0, 0⟩ 0 90 MOVE_SPEED MOUSE_SENSITIVTY
        ZOOM_SENSITIVTY (MOUSE_ZOOM_MAX / 2))
    show (updateCameraVectors realLibm _).m_side = _
    rw [updateCameraVectors_side, hf]
    simp only [Libm.normalize, Vec3.cross, Vec3.scale, VIEWUP, hx, hz]
    ext <;> simp
  rw [hside]
  simp [Libm.length, Vec3.dot, realLibm]

/-- Exact arithmetic: for each constructor form and all arguments whose pitch
has a non-zero cosine (every pitch in `[-89, 89]`, and always for the two
defaulting constructors), right after construction forward is a unit vector,
side is `normalize(cross(forward, worldUp))` and a unit vector, and up is
`normalize(cross(side, forward))`, a unit vector orthogonal to forward. -/
theorem exact_constructor_basis (ctor : Ctor ℝ)
    (hc : realLibm.cos (realLibm.radians ctor.pitch) ≠ 0) :
    realLibm.length (construct realLibm ctor).m_forward = 1
      ∧ (construct realLibm ctor).m_side
          = realLibm.normalize (Vec3.cross (construct realLibm ctor).m_forward ⟨0, 1, 0⟩)
      ∧ realLibm.length (construct realLibm ctor).m_side = 1
      ∧ (construct realLibm ctor).m_viewUp
          = realLibm.normalize (Vec3.cross (construct realLibm ctor).m_side
              (construct realLibm ctor).m_forward)
      ∧ realLibm.length (construct realLibm ctor).m_viewUp = 1
      ∧ Vec3.dot (construct realLibm ctor).m_viewUp (construct realLibm ctor).m_forward = 0 := by
  obtain ⟨hf, hs, hu, _, hfu, _⟩ := realLibm_lawful.construct_orthonormal ctor hc
  obtain ⟨e1, e2⟩ := construct_basisEquations (m := realLibm) ctor
  refine ⟨realLibm_lawful.length_of_unit hf, e1, realLibm_lawful.length_of_unit hs, e2,
    realLibm_lawful.length_of_unit hu, ?_⟩
  rw [Vec3.dot_comm]; exact hfu

/-- The cosine of every pitch in `[-89, 89]` degrees is non-zero. -/
theorem cos_radians_ne_zero_of_mem (pitch : ℝ) (h1 : -89 ≤ pitch) (h2 : pitch ≤ 89) :
    realLibm.cos (realLibm.radians pitch) ≠ 0 :=
  ne_of_gt (realLibm_lawful.cos_radians_pos (by simpa only [PITCH_ANGLE_MAX] using h1)
    (by simpa only [PITCH_ANGLE_MAX] using h2))

/-- The four-argument constructor at yaw 30 and pitch 45 has a unit basis. -/
theorem exact_constructor_basis_at_30_45 :
    realLibm.cos (realLibm.radians (Ctor.full POS VIEWUP 30 45 : Ctor ℝ).pitch) ≠ 0
      ∧ realLibm.length (construct realLibm (Ctor.full POS VIEWUP 30 45)).m_forward = 1
      ∧ realLibm.length (construct realLibm (Ctor.full POS VIEWUP 30 45)).m_side = 1
      ∧ realLibm.length (construct realLibm (Ctor.full POS VIEWUP 30 45)).m_viewUp = 1 :=
  have hc : realLibm.cos (realLibm.radians (Ctor.full POS VIEWUP 30 45 : Ctor ℝ).pitch) ≠ 0 :=
    cos_radians_ne_zero_of_mem 45 (by norm_num) (by norm_num)
  have h := exact_constructor_basis (Ctor.full POS VIEWUP 30 45) hc
  ⟨hc, h.1, h.2.2.1, h.2.2.2.2.1⟩

/-- C6: the un-normalized forward vector is
`(sin yaw * cos pitch, sin pitch, -cos yaw * cos pitch)` (angles in radians);
it has length exactly 1 for every yaw and pitch, so normalizing leaves it
unchanged; and after any constructor, `handleMouseMove` or `reset` the stored
forward is that vector at the stored yaw and pitch, hence a function of yaw
and pitch alone. -/
theorem C6_forward_formula :
    (∀ yaw pitch : ℝ,
        newForward realLibm yaw pitch
            = ⟨Real.sin (yaw * (Real.pi / 180)) * Real.cos (pitch * (Real.pi / 180)),
               Real.sin (pitch * (Real.pi / 180)),
               -Real.cos (yaw * (Real.pi / 180)) * Real.cos (pitch * (Real.pi / 180))⟩
          ∧ realLibm.length (newForward realLibm yaw pitch) = 1
          ∧ realLibm.normalize (newForward realLibm yaw pitch) = newForward realLibm yaw pitch)
      ∧ (∀ ctor : Ctor ℝ,
          (construct realLibm ctor).m_forward
            = newForward realLibm (construct realLibm ctor).m_yawAngle
                (construct realLibm ctor).m_pitchAngle)
      ∧ (∀ (c : Camera ℝ) (xoffset yoffset : ℝ),
          (handleMouseMove realLibm c xoffset yoffset).m_forward
            = newForward realLibm (handleMouseMove realLibm c xoffset yoffset).m_yawAngle
                (handleMouseMove realLibm c xoffset yoffset).m_pitchAngle)
      ∧ (∀ c : Camera ℝ,
          (reset realLibm c).m_forward
            = newForward realLibm (reset realLibm c).m_yawAngle
                (reset realLibm c).m_pitchAngle) := by
  refine ⟨fun yaw pitch => ⟨rfl, ?_, ?_⟩, fun ctor => ?_, fun c x y => ?_, fun c => ?_⟩
  · exact realLibm_lawful.length_of_unit (realLibm_lawful.dot_newForward yaw pitch)
  · exact realLibm_lawful.normalize_of_unit (realLibm_lawful.dot_newForward yaw pitch)
  · cases ctor <;> exact realLibm_lawful.update_forward _
  · exact realLibm_lawful.update_forward _
  · exact realLibm_lawful.update_forward _

/-- C7: in every state reachable from any constructor by any sequence of
public operations, side is `normalize(cross(forward, (0,1,0)))` and up is
`normalize(cross(side, forward))`; `handleKeyPress` and `handleMouseScroll`
leave forward, side and up untouched, and `reset` re-establishes the equations
from any state. -/
theorem C7_basis_equations (m : Libm F) :
    (∀ (ctor : Ctor F) (ops : List (Op F)),
        (run m (construct m ctor) ops).m_side
            = m.normalize (Vec3.cross (run m (construct m ctor) ops).m_forward ⟨0, 1, 0⟩)
          ∧ (run m (construct m ctor) ops).m_viewUp
            = m.normalize (Vec3.cross (run m (construct m ctor) ops).m_side
                (run m (construct m ctor) ops).m_forward))
      ∧ (∀ (c : Camera F) (d : Camera_Movement) (dt : F),
          (handleKeyPress c d dt).m_forward = c.m_forward
            ∧ (handleKeyPress c d dt).m_side = c.m_side
            ∧ (handleKeyPress c d dt).m_viewUp = c.m_viewUp)
      ∧ (∀ (c : Camera F) (yoffset : F),
          (handleMouseScroll c yoffset).m_forward = c.m_forward
            ∧ (handleMouseScroll c yoffset).m_side = c.m_side
            ∧ (handleMouseScroll c yoffset).m_viewUp = c.m_viewUp)
      ∧ (∀ c : Camera F,
          (reset m c).m_side = m.normalize (Vec3.cross (reset m c).m_forward ⟨0, 1, 0⟩)
            ∧ (reset m c).m_viewUp
              = m.normalize (Vec3.cross (reset m c).m_side (reset m c).m_forward)) :=
  ⟨fun ctor ops => run_basisEquations ops _ (construct_basisEquations ctor),
    handleKeyPress_basis, handleMouseScroll_basis, fun _ => ⟨rfl, rfl⟩⟩

/-- C8: the four-argument constructor ignores its `up` argument: cameras built
with the same position, yaw and pitch but different `up` vectors are equal in
every field, and remain equal under every identical sequence of operations. -/
theorem C8_up_argument_ignored (m : Libm F) (pos u1 u2 : Vec3 F) (yaw pitch : F) :
    Camera4 m pos u1 yaw pitch = Camera4 m pos u2 yaw pitch
      ∧ ∀ ops : List (Op F),
          run m (Camera4 m pos u1 yaw pitch) ops = run m (Camera4 m pos u2 yaw pitch) ops := by
  have h : Camera4 m pos u1 yaw pitch = Camera4 m pos u2 yaw pitch :=
    updateCameraVectors_congr _ _ rfl rfl rfl rfl rfl rfl rfl
  exact ⟨h, fun ops => by rw [h]⟩

/-- C9: with `v = m_moveSpeed * deltaTime`, `handleKeyPress` sets the position
to `old + up * v` (UP), `old - up * v` (DOWN), `old + forward * v` (FORWARD),
`old - forward * v` (BACKWARD), `old - side * v` (LEFT), `old + side * v`
(RIGHT), with the basis vectors stored before the call. -/
theorem C9_keyPress_displacement (c : Camera F) (dt : F) :
    (handleKeyPress c Camera_Movement.UP dt).m_position
        = Vec3.add c.m_position (Vec3.scale c.m_viewUp (c.m_moveSpeed * dt))
      ∧ (handleKeyPress c Camera_Movement.DOWN dt).m_position
        = Vec3.sub c.m_position (Vec3.scale c.m_viewUp (c.m_moveSpeed * dt))
      ∧ (handleKeyPress c Camera_Movement.FORWARD dt).m_position
        = Vec3.add c.m_position (Vec3.scale c.m_forward (c.m_moveSpeed * dt))
      ∧ (handleKeyPress c Camera_Movement.BACKWARD dt).m_position
        = Vec3.sub c.m_position (Vec3.scale c.m_forward (c.m_moveSpeed * dt))
      ∧ (handleKeyPress c Camera_Movement.LEFT dt).m_position
        = Vec3.sub c.m_position (Vec3.scale c.m_side (c.m_moveSpeed * dt))
      ∧ (handleKeyPress c Camera_Movement.RIGHT dt).m_position
        = Vec3.add c.m_position (Vec3.scale c.m_side (c.m_moveSpeed * dt)) :=
  ⟨rfl, rfl, rfl, rfl, rfl, rfl⟩

/-- C10: in every state reachable from `Camera()` or `Camera(pos)`, for every
direction and every real `dt`, `handleKeyPress(direction, dt)` moves the
position by a Euclidean distance of exactly `m_moveSpeed * |dt| = 5 * |dt|`;
no clamping is applied, so the jump exceeds every bound for a large enough `dt`. -/
theorem C10_keyPress_jump :
    (∀ (ops : List (Op ℝ)) (d : Camera_Movement) (dt : ℝ),
        (run realLibm (Camera0 realLibm) ops).m_moveSpeed = 5
          ∧ realLibm.distance (run realLibm (Camera0 realLibm) ops).m_position
              (handleKeyPress (run realLibm (Camera0 realLibm) ops) d dt).m_position
            = 5 * |dt|)
      ∧ (∀ (pos : Vec3 ℝ) (ops : List (Op ℝ)) (d : Camera_Movement) (dt : ℝ),
        (run realLibm (Camera1 realLibm pos) ops).m_moveSpeed = 5
          ∧ realLibm.distance (run realLibm (Camera1 realLibm pos) ops).m_position
              (handleKeyPress (run realLibm (Camera1 realLibm pos) ops) d dt).m_position
            = 5 * |dt|)
      ∧ (∀ (pos : Vec3 ℝ) (ops : List (Op ℝ)) (d : Camera_Movement) (bound : ℝ),
        ∃ dt : ℝ, bound
          < realLibm.distance (run realLibm (Camera1 realLibm pos) ops).m_position
              (handleKeyPress (run realLibm (Camera1 realLibm pos) ops) d dt).m_position) := by
  have h0 := fun ops d dt => realLibm_lawful.keyPressJump_run Ctor.noArgs
    realLibm_lawful.cos_radians_PITCH_ne_zero ops d dt
  have h1 := fun pos ops d dt => realLibm_lawful.keyPressJump_run (Ctor.posOnly pos)
    realLibm_lawful.cos_radians_PITCH_ne_zero ops d dt
  refine ⟨fun ops d dt => ⟨?_, h0 ops d dt⟩, fun pos ops d dt => ⟨?_, h1 pos ops d dt⟩,
    fun pos ops d bound => ⟨|bound| + 1, ?_⟩⟩
  · rw [run_moveSpeed]; rfl
  · rw [run_moveSpeed]; rfl
  · have e := h1 pos ops d (|bound| + 1)
    simp only [keyPressJump, construct] at e
    rw [e]
    have hb : bound ≤ |bound| := le_abs_self bound
    have hp : (0 : ℝ) ≤ |bound| + 1 := by positivity
    rw [abs_of_nonneg hp]
    linarith [abs_nonneg bound]

/-- C11: `handleKeyPress` changes only the position: the state after the call
is the old state with a new position, so yaw, pitch, forward, side, up, zoom,
move speed and both sensitivities are the same before and after. -/
theorem C11_keyPress_frame (c : Camera F) (d : Camera_Movement) (dt : F) :
    handleKeyPress c d dt = { c with m_position := (handleKeyPress c d dt).m_position }
      ∧ (handleKeyPress c d dt).m_yawAngle = c.m_yawAngle
      ∧ (handleKeyPress c d dt).m_pitchAngle = c.m_pitchAngle
      ∧ (handleKeyPress c d dt).m_forward = c.m_forward
      ∧ (handleKeyPress c d dt).m_side = c.m_side
      ∧ (handleKeyPress c d dt).m_viewUp = c.m_viewUp
      ∧ (handleKeyPress c d dt).m_mouseZoom = c.m_mouseZoom
      ∧ (handleKeyPress c d dt).m_moveSpeed = c.m_moveSpeed
      ∧ (handleKeyPress c d dt).m_mouseSensitivity = c.m_mouseSensitivity
      ∧ (handleKeyPress c d dt).m_zoomSensitivity = c.m_zoomSensitivity := by
  refine ⟨handleKeyPress_frame c d dt, ?_⟩
  cases d <;> exact ⟨rfl, rfl, rfl, rfl, rfl, rfl, rfl, rfl, rfl⟩

/-- C12: in every state reachable from any constructor the zoom-sensitivity
field is 2 and `handleMouseScroll(yoffset)` sets the zoom to
`clamp(oldZoom - zoomSensitivity * yoffset, 1, 80)`; a freshly constructed
camera has zoom 40, and from there every `yoffset > 19.5` leaves the zoom
exactly 1. -/
theorem C12_scroll_clamped (m : Libm F) :
    (∀ (ctor : Ctor F) (ops : List (Op F)) (yoffset : F),
        (run m (construct m ctor) ops).m_zoomSensitivity = 2
          ∧ (handleMouseScroll (run m (construct m ctor) ops) yoffset).m_mouseZoom
            = clamp ((run m (construct m ctor) ops).m_mouseZoom
                - (run m (construct m ctor) ops).m_zoomSensitivity * yoffset) 1 80)
      ∧ (∀ (ctor : Ctor F) (yoffset : F),
          (construct m ctor).m_mouseZoom = 40
            ∧ (39 / 2 < yoffset
                → (handleMouseScroll (construct m ctor) yoffset).m_mouseZoom = 1)) := by
  refine ⟨fun ctor ops y => ?_, fun ctor y => ?_⟩
  · have hz : (run m (construct m ctor) ops).m_zoomSensitivity = 2 :=
      (run_configFixed (m := m) ctor ops).2.2
    refine ⟨hz, ?_⟩
    rw [handleMouseScroll_zoom, hz]
    simp only [ZOOM_SENSITIVTY, MOUSE_ZOOM_MIN, MOUSE_ZOOM_MAX]
  · have h40 : (construct m ctor).m_mouseZoom = 40 := by
      have e : (construct m ctor).m_mouseZoom = MOUSE_ZOOM_MAX / 2 := by cases ctor <;> rfl
      rw [e]; simp only [MOUSE_ZOOM_MAX]; norm_num
    refine ⟨h40, fun hy => ?_⟩
    rw [handleMouseScroll_zoom, h40]
    simp only [ZOOM_SENSITIVTY, MOUSE_ZOOM_MIN, MOUSE_ZOOM_MAX, clamp]
    rw [min_eq_right (by linarith), max_eq_left (by linarith)]

/-- Witness for C12: scrolling by 20 on the default camera. -/
theorem C12_scroll_clamped_witness :
    (39 / 2 : ℝ) < 20
      ∧ (handleMouseScroll (construct realLibm Ctor.noArgs) 20).m_mouseZoom = 1 :=
  ⟨by norm_num, ((C12_scroll_clamped realLibm).2 Ctor.noArgs 20).2 (by norm_num)⟩

/-- C13: in every state reachable from any of the three constructors by any
sequence of public mutators, `getZoom()` lies in `[1, 80]`. -/
theorem C13_zoom_invariant (m : Libm F) (ctor : Ctor F) (ops : List (Op F)) :
    1 ≤ getZoom (run m (construct m ctor) ops)
      ∧ getZoom (run m (construct m ctor) ops) ≤ 80 := by
  have h := run_zoomInRange (m := m) ops (construct m ctor) (construct_zoomInRange ctor)
  simpa only [ZoomInRange, MOUSE_ZOOM_MIN, MOUSE_ZOOM_MAX, getZoom] using h

/-- C14: `handleMouseScroll` changes only the zoom: the state after the call is
the old state with a new zoom, so position, yaw, pitch, forward, side and up
are the same before and after. -/
theorem C14_scroll_frame (c : Camera F) (yoffset : F) :
    handleMouseScroll c yoffset
        = { c with m_mouseZoom := (handleMouseScroll c yoffset).m_mouseZoom }
      ∧ (handleMouseScroll c yoffset).m_position = c.m_position
      ∧ (handleMouseScroll c yoffset).m_yawAngle = c.m_yawAngle
      ∧ (handleMouseScroll c yoffset).m_pitchAngle = c.m_pitchAngle
      ∧ (handleMouseScroll c yoffset).m_forward = c.m_forward
      ∧ (handleMouseScroll c yoffset).m_side = c.m_side
      ∧ (handleMouseScroll c yoffset).m_viewUp = c.m_viewUp := by
  have h := handleMouseScroll_frame c yoffset
  refine ⟨h, ?_⟩
  rw [h]
  exact ⟨rfl, rfl, rfl, rfl, rfl, rfl⟩

/-- C15: for a camera built by any constructor and driven by any sequence of
mutators, `reset()` gives a state equal in every field to `Camera()`, whose
position is `(0, 1.5, 10)`, zoom 40, yaw 0, pitch 0, forward `(0, 0, -1)`, side
`(1, 0, 0)` and up `(0, 1, 0)`, an orthonormal basis. -/
theorem C15_reset_restores_default (ctor : Ctor ℝ) (ops : List (Op ℝ)) :
    reset realLibm (run realLibm (construct realLibm ctor) ops) = Camera0 realLibm
      ∧ (Camera0 realLibm).m_position = ⟨0, 3 / 2, 10⟩
      ∧ (Camera0 realLibm).m_mouseZoom = 40
      ∧ (Camera0 realLibm).m_yawAngle = 0
      ∧ (Camera0 realLibm).m_pitchAngle = 0
      ∧ (Camera0 realLibm).m_forward = ⟨0, 0, -1⟩
      ∧ (Camera0 realLibm).m_side = ⟨1, 0, 0⟩
      ∧ (Camera0 realLibm).m_viewUp = ⟨0, 1, 0⟩
      ∧ Orthonormal (reset realLibm (run realLibm (construct realLibm ctor) ops)) := by
  have h0 := realLibm_lawful.Camera0_eq
  refine ⟨reset_eq_Camera0 _ (run_configFixed ctor ops), ?_, ?_, ?_, ?_, ?_, ?_, ?_,
    realLibm_lawful.reset_orthonormal _⟩
  all_goals rw [h0]

/-- C16: `reset` is idempotent: resetting twice gives the same state, in every
field, as resetting once, from any state. -/
theorem C16_reset_idempotent (m : Libm F) (c : Camera F) :
    reset m (reset m c) = reset m c :=
  reset_reset c

/-- C18: `getViewMatrix()` is the look-at transform with eye = position,
target = position + forward and up = the stored up vector.  In every state of
a constructed camera whose basis is orthonormal, and in every state right after
`handleMouseMove` or `reset`, it sends position to the origin,
position + forward to `(0, 0, -1)`, position + up to `(0, 1, 0)` and
position + side to `(1, 0, 0)`. -/
theorem C18_view_matrix :
    (∀ c : Camera ℝ,
        getViewMatrix realLibm c
          = lookAt realLibm c.m_position (Vec3.add c.m_position c.m_forward) c.m_viewUp)
      ∧ (∀ (ctor : Ctor ℝ) (ops : List (Op ℝ)),
          Orthonormal (run realLibm (construct realLibm ctor) ops)
            → ViewMapsBasis realLibm (run realLibm (construct realLibm ctor) ops))
      ∧ (∀ (c : Camera ℝ) (xoffset yoffset : ℝ),
          ViewMapsBasis realLibm (handleMouseMove realLibm c xoffset yoffset))
      ∧ (∀ c : Camera ℝ, ViewMapsBasis realLibm (reset realLibm c)) :=
  ⟨fun _ => rfl,
    fun ctor ops ho => realLibm_lawful.viewMapsBasis _ ho
      (run_basisEquations ops _ (construct_basisEquations ctor)),
    fun c x y => realLibm_lawful.viewMapsBasis _
      (realLibm_lawful.handleMouseMove_orthonormal c x y) ⟨rfl, rfl⟩,
    fun c => realLibm_lawful.viewMapsBasis _ (realLibm_lawful.reset_orthonormal c) ⟨rfl, rfl⟩⟩

/-- Witness for C18: the default camera after one step forward. -/
theorem C18_view_matrix_witness :
    Orthonormal (run realLibm (construct realLibm Ctor.noArgs)
        [Op.keyPress Camera_Movement.FORWARD 1])
      ∧ ViewMapsBasis realLibm (run realLibm (construct realLibm Ctor.noArgs)
        [Op.keyPress Camera_Movement.FORWARD 1]) :=
  have ho : Orthonormal (run realLibm (construct realLibm Ctor.noArgs)
      [Op.keyPress Camera_Movement.FORWARD 1]) :=
    realLibm_lawful.run_orthonormal _ _
      (realLibm_lawful.construct_orthonormal Ctor.noArgs
        realLibm_lawful.cos_radians_PITCH_ne_zero)
  ⟨ho, C18_view_matrix.2.1 Ctor.noArgs _ ho⟩

/-- C19: in every state reachable from any constructor by any sequence of
public operations the move speed, look sensitivity and zoom sensitivity are
5, 0.1 and 2, and no public operation changes any of the three. -/
theorem C19_config_fixed (m : Libm F) :
    (∀ (ctor : Ctor F) (ops : List (Op F)),
        (run m (construct m ctor) ops).m_moveSpeed = 5
          ∧ (run m (construct m ctor) ops).m_mouseSensitivity = 1 / 10
          ∧ (run m (construct m ctor) ops).m_zoomSensitivity = 2)
      ∧ (∀ (c : Camera F) (op : Op F),
          (step m c op).m_moveSpeed = c.m_moveSpeed
            ∧ (step m c op).m_mouseSensitivity = c.m_mouseSensitivity
            ∧ (step m c op).m_zoomSensitivity = c.m_zoomSensitivity) :=
  ⟨fun ctor ops => run_configFixed ctor ops, fun c op => step_config c op⟩

/-- C20: `Camera()` has position `(0, 1.5, 10)`, yaw 0, pitch 0, zoom 40,
forward `(0, 0, -1)`, side `(1, 0, 0)` and up `(0, 1, 0)`; and `Camera(p)` is
`Camera()` with the position replaced by `p`. -/
theorem C20_default_constructors :
    (Camera0 realLibm).m_position = ⟨0, 3 / 2, 10⟩
      ∧ (Camera0 realLibm).m_yawAngle = 0
      ∧ (Camera0 realLibm).m_pitchAngle = 0
      ∧ (Camera0 realLibm).m_mouseZoom = 40
      ∧ (Camera0 realLibm).m_forward = ⟨0, 0, -1⟩
      ∧ (Camera0 realLibm).m_side = ⟨1, 0, 0⟩
      ∧ (Camera0 realLibm).m_viewUp = ⟨0, 1, 0⟩
      ∧ ∀ p : Vec3 ℝ, Camera1 realLibm p = { Camera0 realLibm with m_position := p }
          ∧ (Camera1 realLibm p).m_position = p := by
  have h0 := realLibm_lawful.Camera0_eq
  refine ⟨?_, ?_, ?_, ?_, ?_, ?_, ?_, fun p => ⟨Camera1_eq p, rfl⟩⟩
  all_goals rw [h0]

/-- C21: the three accessors are pure: a call leaves the state unchanged in
every field, so does any sequence of calls, and an accessor called after any
sequence of accessor calls returns what it returns at once; `getZoom` returns
the zoom field and `getPosition` the position field. -/
theorem C21_accessors_pure (m : Libm F) (c : Camera F) :
    (∀ q : Accessor, (callAccessor m c q).2 = c)
      ∧ (∀ qs : List Accessor, callAccessors m c qs = c)
      ∧ (∀ (qs : List Accessor) (q : Accessor),
          (callAccessor m (callAccessors m c qs) q).1 = (callAccessor m c q).1)
      ∧ getZoom c = c.m_mouseZoom
      ∧ getPosition c = c.m_position
      ∧ getViewMatrix m c
          = lookAt m c.m_position (Vec3.add c.m_position c.m_forward) c.m_viewUp := by
  have h1 : ∀ (s : Camera F) (q : Accessor), (callAccessor m s q).2 = s := by
    intro s q; cases q <;> rfl
  have h2 : ∀ qs : List Accessor, callAccessors m c qs = c := by
    intro qs
    induction qs with
    | nil => rfl
    | cons q rest ih =>
      show callAccessors m (callAccessor m c q).2 rest = c
      rw [h1]; exact ih
  exact ⟨h1 c, h2, fun qs q => by rw [h2], rfl, rfl, rfl⟩

/-- C22: over exact real arithmetic, in every state with pitch in `[-89, 89]`
the three vectors `updateCameraVectors` normalizes (the raw forward,
`cross(forward, worldUp)` and `cross(side, forward)`) are non-zero and the
square roots it divides by are non-zero; the states produced by
`handleMouseMove`, `reset`, `Camera()` and `Camera(pos)` have such a pitch. -/
theorem C22_normalization_defined :
    (∀ c : Camera ℝ, -89 ≤ c.m_pitchAngle → c.m_pitchAngle ≤ 89
        → NormalizationDefined realLibm c)
      ∧ (∀ (c : Camera ℝ) (xoffset yoffset : ℝ),
          -89 ≤ (handleMouseMove realLibm c xoffset yoffset).m_pitchAngle
            ∧ (handleMouseMove realLibm c xoffset yoffset).m_pitchAngle ≤ 89)
      ∧ (∀ c : Camera ℝ,
          -89 ≤ (reset realLibm c).m_pitchAngle ∧ (reset realLibm c).m_pitchAngle ≤ 89)
      ∧ (-89 ≤ (Camera0 realLibm).m_pitchAngle ∧ (Camera0 realLibm).m_pitchAngle ≤ 89)
      ∧ (∀ pos : Vec3 ℝ,
          -89 ≤ (Camera1 realLibm pos).m_pitchAngle
            ∧ (Camera1 realLibm pos).m_pitchAngle ≤ 89) := by
  have h0 : (-89 : ℝ) ≤ 0 ∧ (0 : ℝ) ≤ 89 := by constructor <;> norm_num
  refine ⟨fun c h1 h2 => ?_, fun c x y => ?_, fun c => ?_, ?_, fun pos => ?_⟩
  · exact realLibm_lawful.normalizationDefined c
      (ne_of_gt (realLibm_lawful.cos_radians_pos
        (by simpa only [PITCH_ANGLE_MAX] using h1) (by simpa only [PITCH_ANGLE_MAX] using h2)))
  · simpa only [PITCH_ANGLE_MAX] using handleMouseMove_pitch_mem (m := realLibm) c x y
  · simpa only [PitchInRange, PITCH_ANGLE_MAX] using reset_pitchInRange (m := realLibm) c
  · exact h0
  · exact h0

/-- Witness for C22: the state stored by the four-argument constructor with
pitch 45. -/
theorem C22_normalization_defined_witness :
    (-89 : ℝ) ≤ (Camera4 realLibm POS VIEWUP 30 45).m_pitchAngle
      ∧ (Camera4 realLibm POS VIEWUP 30 45).m_pitchAngle ≤ 89
      ∧ NormalizationDefined realLibm (Camera4 realLibm POS VIEWUP 30 45) :=
  have h1 : (-89 : ℝ) ≤ (Camera4 realLibm POS VIEWUP 30 45).m_pitchAngle := by
    show (-89 : ℝ) ≤ 45; norm_num
  have h2 : (Camera4 realLibm POS VIEWUP 30 45).m_pitchAngle ≤ 89 := by
    show (45 : ℝ) ≤ 89; norm_num
  ⟨h1, h2, C22_normalization_defined.1 _ h1 h2⟩

/-- C23: evaluation of `key_callback` with Shift and Control held
(`mods = GLFW_MOD_SHIFT + GLFW_MOD_CONTROL = 3`, Shift bit set): the inner
switch has only the label `case(1)`, so key W calls `handleKeyPress(UP, ...)`
and key S calls `handleKeyPress(DOWN, ...)`; the claim says FORWARD and
BACKWARD. -/
theorem C23_shift_with_control (m : Libm F) (a : App F) (scancode : Int) :
    shiftHeld (GLFW_MOD_SHIFT + GLFW_MOD_CONTROL)
      ∧ movementCall GLFW_KEY_W (GLFW_MOD_SHIFT + GLFW_MOD_CONTROL)
          = some Camera_Movement.UP
      ∧ movementCall GLFW_KEY_S (GLFW_MOD_SHIFT + GLFW_MOD_CONTROL)
          = some Camera_Movement.DOWN
      ∧ (key_callback m a GLFW_KEY_W scancode GLFW_PRESS
            (GLFW_MOD_SHIFT + GLFW_MOD_CONTROL)).camera
          = handleKeyPress a.camera Camera_Movement.UP a.deltaTime
      ∧ (key_callback m a GLFW_KEY_S scancode GLFW_PRESS
            (GLFW_MOD_SHIFT + GLFW_MOD_CONTROL)).camera
          = handleKeyPress a.camera Camera_Movement.DOWN a.deltaTime := by
  have hW : movementCall GLFW_KEY_W (GLFW_MOD_SHIFT + GLFW_MOD_CONTROL)
      = some Camera_Movement.UP := by decide
  have hS : movementCall GLFW_KEY_S (GLFW_MOD_SHIFT + GLFW_MOD_CONTROL)
      = some Camera_Movement.DOWN := by decide
  have hShift : shiftHeld (GLFW_MOD_SHIFT + GLFW_MOD_CONTROL) := by
    show (GLFW_MOD_SHIFT + GLFW_MOD_CONTROL) % 2 = 1
    decide
  refine ⟨hShift, hW, hS, ?_, ?_⟩
  · simp only [key_callback, hW]
    simp [keyPressActions, GLFW_KEY_W, GLFW_KEY_ESCAPE, GLFW_KEY_N, GLFW_KEY_P,
      GLFW_KEY_SPACE, GLFW_KEY_R]
  · simp only [key_callback, hS]
    simp [keyPressActions, GLFW_KEY_S, GLFW_KEY_ESCAPE, GLFW_KEY_N, GLFW_KEY_P,
      GLFW_KEY_SPACE, GLFW_KEY_R]

/-- C25: evaluation of `loadDDS` on a 4 x 4 DXT1 header with the full chain of
3 mip levels and `linearSize = 8`, which meets every precondition of the claim:
the buffer has `8 * 2 = 16` bytes and the loop reads the ranges
`[0, 8)`, `[8, 16)` and `[16, 24)`; the third is past the end of the buffer. -/
theorem C25_mip_chain_overrun :
    DDSWellFormed ⟨4, 4, 8, 3, FOURCC_DXT1⟩
      ∧ loadDDS ⟨4, 4, 8, 3, FOURCC_DXT1⟩ = some (16, [(0, 8), (8, 8), (16, 8)])
      ∧ ¬ (16 + 8 ≤ 16) := by
  refine ⟨⟨by decide, by decide, Or.inl rfl, by decide, ?_⟩, by decide, by decide⟩
  show 3 ≤ Nat.log 2 (max 4 4) + 1
  have h : Nat.log 2 (max 4 4) = 2 := by
    rw [Nat.log_eq_iff (by decide)]; decide
  rw [h]

/-- C27: over exact real arithmetic, for every yaw and every pitch strictly
between -90 and 90 degrees `updateCameraVectors` yields
side `(cos yaw, 0, sin yaw)` and
up `(-sin yaw * sin pitch, cos pitch, cos yaw * sin pitch)`, with `side.y = 0`
and `up.y = cos pitch > 0`; this is the case in every state after
`handleMouseMove`. -/
theorem C27_closed_form_basis :
    (∀ c : Camera ℝ, -90 < c.m_pitchAngle → c.m_pitchAngle < 90
        → (updateCameraVectors realLibm c).m_side
            = ⟨Real.cos (c.m_yawAngle * (Real.pi / 180)), 0,
               Real.sin (c.m_yawAngle * (Real.pi / 180))⟩
          ∧ (updateCameraVectors realLibm c).m_viewUp
            = ⟨-Real.sin (c.m_yawAngle * (Real.pi / 180))
                  * Real.sin (c.m_pitchAngle * (Real.pi / 180)),
               Real.cos (c.m_pitchAngle * (Real.pi / 180)),
               Real.cos (c.m_yawAngle * (Real.pi / 180))
                  * Real.sin (c.m_pitchAngle * (Real.pi / 180))⟩
          ∧ (updateCameraVectors realLibm c).m_side.y = 0
          ∧ 0 < (updateCameraVectors realLibm c).m_viewUp.y)
      ∧ (∀ (c : Camera ℝ) (xoffset yoffset : ℝ),
          ClosedFormBasis realLibm (handleMouseMove realLibm c xoffset yoffset)) := by
  refine ⟨fun c h1 h2 => ?_, fun c x y => ?_⟩
  · exact realLibm_lawful.update_closedForm c (realLibm_lawful.cos_radians_pos_of_lt h1 h2)
  · have hp := normalizeAngle_pitchInRange
      ({ c with m_pitchAngle := c.m_pitchAngle + y * c.m_mouseSensitivity,
                m_yawAngle := c.m_yawAngle + x * c.m_mouseSensitivity } : Camera ℝ)
    exact realLibm_lawful.update_closedForm _ (realLibm_lawful.cos_radians_pos hp.1 hp.2)

/-- Witness for C27: yaw 30 and pitch 45. -/
theorem C27_closed_form_basis_witness :
    (-90 : ℝ) < (Camera4 realLibm POS VIEWUP 30 45).m_pitchAngle
      ∧ (Camera4 realLibm POS VIEWUP 30 45).m_pitchAngle < 90
      ∧ (updateCameraVectors realLibm (Camera4 realLibm POS VIEWUP 30 45)).m_side.y = 0
      ∧ 0 < (updateCameraVectors realLibm (Camera4 realLibm POS VIEWUP 30 45)).m_viewUp.y :=
  have h1 : (-90 : ℝ) < (Camera4 realLibm POS VIEWUP 30 45).m_pitchAngle := by
    show (-90 : ℝ) < 45; norm_num
  have h2 : (Camera4 realLibm POS VIEWUP 30 45).m_pitchAngle < 90 := by
    show (45 : ℝ) < 90; norm_num
  have h := C27_closed_form_basis.1 (Camera4 realLibm POS VIEWUP 30 45) h1 h2
  ⟨h1, h2, h.2.2.1, h.2.2.2⟩

/-- C28: opposite movement commands cancel over exact arithmetic: FORWARD then
BACKWARD, UP then DOWN and LEFT then RIGHT with the same `dt`, in either order,
restore the original state, and `handleKeyPress(d, 0)` leaves the state
unchanged for every direction `d`. -/
theorem C28_opposite_moves_cancel (c : Camera F) (dt : F) :
    handleKeyPress (handleKeyPress c Camera_Movement.FORWARD dt) Camera_Movement.BACKWARD dt = c
      ∧ handleKeyPress (handleKeyPress c Camera_Movement.BACKWARD dt)
          Camera_Movement.FORWARD dt = c
      ∧ handleKeyPress (handleKeyPress c Camera_Movement.UP dt) Camera_Movement.DOWN dt = c
      ∧ handleKeyPress (handleKeyPress c Camera_Movement.DOWN dt) Camera_Movement.UP dt = c
      ∧ handleKeyPress (handleKeyPress c Camera_Movement.LEFT dt) Camera_Movement.RIGHT dt = c
      ∧ handleKeyPress (handleKeyPress c Camera_Movement.RIGHT dt) Camera_Movement.LEFT dt = c
      ∧ ∀ d : Camera_Movement, handleKeyPress c d 0 = c := by
  refine ⟨?_, ?_, ?_, ?_, ?_, ?_, handleKeyPress_zero c⟩ <;>
    simp only [handleKeyPress, Vec3.add_sub_scale, Vec3.sub_add_scale]

/-- C29: for the keys W, A, S and D the result of `key_callback` is the same
for every action as for `GLFW_PRESS` (same `handleKeyPress` call, same
`deltaTime`), for every `mods`; for an action other than `GLFW_PRESS` the keys
R, N, P and Space change nothing, while on `GLFW_PRESS` R resets the camera and
N, P and Space flip their toggles. -/
theorem C29_movement_ignores_action (m : Libm F) (a : App F) (scancode mods : Int) :
    (∀ key action : Int,
        key = GLFW_KEY_W ∨ key = GLFW_KEY_A ∨ key = GLFW_KEY_S ∨ key = GLFW_KEY_D
          → key_callback m a key scancode action mods
              = key_callback m a key scancode GLFW_PRESS mods
            ∧ ∃ d : Camera_Movement,
                key_callback m a key scancode action mods
                  = { a with camera := handleKeyPress a.camera d a.deltaTime })
      ∧ (∀ key action : Int,
          key = GLFW_KEY_R ∨ key = GLFW_KEY_N ∨ key = GLFW_KEY_P ∨ key = GLFW_KEY_SPACE
            → action ≠ GLFW_PRESS → key_callback m a key scancode action mods = a)
      ∧ key_callback m a GLFW_KEY_R scancode GLFW_PRESS mods
          = { a with camera := reset m a.camera }
      ∧ key_callback m a GLFW_KEY_N scancode GLFW_PRESS mods
          = { a with bNormalMapping := !a.bNormalMapping }
      ∧ key_callback m a GLFW_KEY_P scancode GLFW_PRESS mods
          = { a with bParallaxMapping := !a.bParallaxMapping }
      ∧ key_callback m a GLFW_KEY_SPACE scancode GLFW_PRESS mods
          = { a with bRotate := !a.bRotate } := by
  refine ⟨fun key action hk => ?_, fun key action hk hne => ?_, ?_, ?_, ?_, ?_⟩
  · have hd : ∃ d, movementCall key mods = some d := by
      rcases hk with rfl | rfl | rfl | rfl
      · by_cases h1 : mods = 1
        · exact ⟨Camera_Movement.FORWARD, by simp [movementCall, h1]⟩
        · exact ⟨Camera_Movement.UP, by simp [movementCall, h1]⟩
      · exact ⟨Camera_Movement.LEFT, by simp [movementCall, GLFW_KEY_A, GLFW_KEY_W]⟩
      · by_cases h1 : mods = 1
        · exact ⟨Camera_Movement.BACKWARD,
            by simp [movementCall, h1, GLFW_KEY_S, GLFW_KEY_A, GLFW_KEY_W]⟩
        · exact ⟨Camera_Movement.DOWN,
            by simp [movementCall, h1, GLFW_KEY_S, GLFW_KEY_A, GLFW_KEY_W]⟩
      · exact ⟨Camera_Movement.RIGHT,
          by simp [movementCall, GLFW_KEY_D, GLFW_KEY_S, GLFW_KEY_A, GLFW_KEY_W]⟩
    obtain ⟨d, hd⟩ := hd
    have e1 := key_callback_movement (m := m) a key scancode action mods hk d hd
    have e2 := key_callback_movement (m := m) a key scancode GLFW_PRESS mods hk d hd
    exact ⟨e1.trans e2.symm, d, e1⟩
  · have hnone : movementCall key mods = none := by
      simp only [movementCall]
      rcases hk with rfl | rfl | rfl | rfl <;>
        simp [GLFW_KEY_W, GLFW_KEY_A, GLFW_KEY_S, GLFW_KEY_D, GLFW_KEY_N, GLFW_KEY_P,
          GLFW_KEY_SPACE, GLFW_KEY_R]
    simp only [key_callback, hnone, keyPressActions_not_press a key action hne]
  all_goals
    simp [key_callback, movementCall, keyPressActions, GLFW_KEY_W, GLFW_KEY_A, GLFW_KEY_S,
      GLFW_KEY_D, GLFW_KEY_N, GLFW_KEY_P, GLFW_KEY_SPACE, GLFW_KEY_R, GLFW_KEY_ESCAPE]

/-- Witness for C29: releasing W with no modifier moves the camera up exactly
as pressing it does, and releasing R changes nothing. -/
theorem C29_movement_ignores_action_witness :
    (GLFW_KEY_W = GLFW_KEY_W ∨ GLFW_KEY_W = GLFW_KEY_A ∨ GLFW_KEY_W = GLFW_KEY_S
        ∨ GLFW_KEY_W = GLFW_KEY_D)
      ∧ key_callback realLibm (App.init realLibm) GLFW_KEY_W 0 GLFW_RELEASE 0
        = key_callback realLibm (App.init realLibm) GLFW_KEY_W 0 GLFW_PRESS 0
      ∧ GLFW_RELEASE ≠ GLFW_PRESS
      ∧ key_callback realLibm (App.init realLibm) GLFW_KEY_R 0 GLFW_RELEASE 0
        = App.init realLibm :=
  have h := C29_movement_ignores_action realLibm (App.init realLibm) 0 0
  ⟨Or.inl rfl, (h.1 GLFW_KEY_W GLFW_RELEASE (Or.inl rfl)).1, by decide,
    h.2.1 GLFW_KEY_R GLFW_RELEASE (Or.inl rfl) (by decide)⟩

/-- C30: the two implementations agree: built with the same one- or
four-argument constructor call and driven by the same sequence of
`handleKeyPress`, `handleMouseMove` and `handleMouseScroll` calls they are
equal in every field; their `updateCameraVectors` are the same function (the
unused `newSide` has no effect); `Camera()` and `reset()` differ only in the
position they store, `(0, 1.5, 10)` against `(0.5, 2, 10)`. -/
theorem C30_implementations_agree (m : Libm F) (ops : List (Op F))
    (hops : ∀ op ∈ ops, op.isReset = false) :
    (∀ pos : Vec3 F,
        WithModel.run m (WithModel.Camera1 m pos) ops = run m (Camera1 m pos) ops)
      ∧ (∀ (pos up : Vec3 F) (yaw pitch : F),
          WithModel.run m (WithModel.Camera4 m pos up yaw pitch) ops
            = run m (Camera4 m pos up yaw pitch) ops)
      ∧ (∀ c : Camera F, WithModel.updateCameraVectors m c = updateCameraVectors m c)
      ∧ WithModel.Camera0 m = { Camera0 m with m_position := ⟨1 / 2, 2, 10⟩ }
      ∧ (Camera0 m).m_position = ⟨0, 3 / 2, 10⟩
      ∧ (∀ c : Camera F, WithModel.reset m c = { reset m c with m_position := ⟨1 / 2, 2, 10⟩ })
      ∧ (∀ c : Camera F, (reset m c).m_position = ⟨0, 3 / 2, 10⟩) :=
  ⟨fun pos => withModel_run_eq ops (Camera1 m pos) hops,
    fun pos up yaw pitch => withModel_run_eq ops (Camera4 m pos up yaw pitch) hops,
    fun _ => rfl, rfl, rfl, fun _ => rfl, fun _ => rfl⟩

/-- Witness for C30: both implementations built at the origin and driven by a
key press, a mouse move and a scroll. -/
theorem C30_implementations_agree_witness :
    (∀ op ∈ [Op.keyPress Camera_Movement.UP (1 : ℝ), Op.mouseMove 10 10, Op.mouseScroll 1],
        op.isReset = false)
      ∧ WithModel.run realLibm (WithModel.Camera1 realLibm ⟨0, 0, 0⟩)
          [Op.keyPress Camera_Movement.UP 1, Op.mouseMove 10 10, Op.mouseScroll 1]
        = run realLibm (Camera1 realLibm ⟨0, 0, 0⟩)
          [Op.keyPress Camera_Movement.UP 1, Op.mouseMove 10 10, Op.mouseScroll 1] :=
  have h : ∀ op ∈ [Op.keyPress Camera_Movement.UP (1 : ℝ), Op.mouseMove 10 10,
      Op.mouseScroll 1], op.isReset = false := by
    intro op hop
    simp only [List.mem_cons, List.mem_singleton, List.not_mem_nil, or_false] at hop
    rcases hop with rfl | rfl | rfl <;> rfl
  ⟨h, (C30_implementations_agree realLibm _ h).1 ⟨0, 0, 0⟩⟩

end Claims

end CameraModel
